import Mathlib

/-!
# Mini banking system: account store and money operations

A shallow embedding of `mini_banking_system.c`.

Modelling conventions
* The global pair `accounts[MAX_ACCOUNTS]` / `account_count` is the list of the
  first `account_count` slots; `account_count` is the length of that list.  The
  slots past `account_count` are never read by the program.
* `double` is `Double`: the values of IEEE 754 binary64 with its NaN, its two
  infinities, round-to-nearest-even addition and subtraction and its
  comparisons, which are false on NaN.  A finite value is held exactly, as a
  whole number of units of 2^-1074.
* `int active` only ever holds 1 or 0 and is a `Bool`.
* Every `scanf` call is an argument holding what that call delivered: `none`
  when the call did not return 1, `some v` when it parsed `v`.  A retry loop
  takes the list of what its successive `scanf` calls deliver; when the list is
  used up the loop never terminates (`scanf` keeps failing at end of input) and
  the model returns `none`.
* What a function prints (prompts and banners left out) is returned as a list
  of `Msg`.
* The menus `main_menu` and `user_session(idx)` are the transition function
  `step` on `Sys`: the store together with the index of the running session,
  if any.  `Reachable` holds of the states between two menu rounds.
-/

namespace Bank

/-- The values of the C type `double` (IEEE 754 binary64).  `fin k` is the
finite value `k * 2^-1074`: every finite double is a whole number `k` of units
of 2^-1074, the smallest subnormal, with `|k| < 2^2098` and with at most 53
binary digits from its first 1 to its last 1.  A `fin k` with another `k` is
not a double; no operation returns one.  The two zeros of the format, which
compare equal and which addition, subtraction and comparison do not tell apart
otherwise than by the sign of a zero result, are the one value `fin 0`; all
NaNs are the one value `nan`. -/
inductive Double where
  | nan
  | inf (neg : Bool)
  | fin (k : Int)
  deriving DecidableEq, Repr

/-- Binary search, over the 12 binary digits of the shift, for the greatest
`acc` with `2^53 ≤ n >>> acc`, starting from an `acc` that has this property;
`j` digits are still to be settled. -/
def Double.search (n : Nat) : Nat → Nat → Nat
  | 0, acc => acc
  | j + 1, acc =>
    if 1 <<< 53 ≤ n >>> (acc + (1 <<< j)) then Double.search n j (acc + (1 <<< j))
    else Double.search n j acc

/-- The double nearest to the exact value of `k` units, ties going to the even
significand: the rounding of IEEE 754 arithmetic in its default mode.  Below
2^53 units every whole number of units is a double (the subnormals and the
first binades).  From 2^2098 units (2^1024) on the result is an infinity.  In
between, `sh` is the number of low binary digits beyond the leading 53, `q` the
leading 53 digits, `r` the digits dropped and `half` half a unit in the last
place kept; a significand rounded up to 2^53 is the next power of two, and a
result of 2^2098 units overflows to an infinity. -/
def Double.round (k : Int) : Double :=
  let n := k.natAbs
  if n < 1 <<< 53 then .fin k
  else if 1 <<< 2098 ≤ n then .inf (decide (k < 0))
  else
    let sh := Double.search n 12 0 + 1
    let q := n >>> sh
    let r := n - (q <<< sh)
    let half := 1 <<< (sh - 1)
    let q1 := if half < r ∨ (r = half ∧ q % 2 = 1) then q + 1 else q
    let m := q1 <<< sh
    if 1 <<< 2098 ≤ m then .inf (decide (k < 0))
    else .fin (if k < 0 then -(m : Int) else (m : Int))

/-- The operation `x + y` on `double`. -/
def Double.add : Double → Double → Double
  | .nan, _ => .nan
  | _, .nan => .nan
  | .inf a, .inf b => if a = b then .inf a else .nan
  | .inf a, .fin _ => .inf a
  | .fin _, .inf b => .inf b
  | .fin a, .fin b => Double.round (a + b)

/-- The operation `-x` on `double`. -/
def Double.neg : Double → Double
  | .nan => .nan
  | .inf a => .inf (!a)
  | .fin a => .fin (-a)

/-- The operation `x - y` on `double`: the sum of `x` and `-y`. -/
def Double.sub (x y : Double) : Double := Double.add x (Double.neg y)

/-- The comparison `x < y` on `double`: false when either side is NaN. -/
def Double.lt : Double → Double → Bool
  | .nan, _ => false
  | _, .nan => false
  | .inf a, .inf b => a && !b
  | .inf a, .fin _ => a
  | .fin _, .inf b => !b
  | .fin a, .fin b => decide (a < b)

/-- The comparison `x <= y` on `double`: false when either side is NaN. -/
def Double.le : Double → Double → Bool
  | .nan, _ => false
  | _, .nan => false
  | .inf a, .inf b => a || !b
  | .inf a, .fin _ => a
  | .fin _, .inf b => !b
  | .fin a, .fin b => decide (a ≤ b)

/-- The double of a whole number (a constant such as `0.0`, or a whole amount
typed in). -/
def Double.ofNat (n : Nat) : Double := Double.round ((n <<< 1074 : Nat) : Int)

instance (n : Nat) : OfNat Double n := ⟨Double.ofNat n⟩

instance : Add Double := ⟨Double.add⟩

instance : Sub Double := ⟨Double.sub⟩

instance : Neg Double := ⟨Double.neg⟩

instance : LT Double := ⟨fun x y => Double.lt x y = true⟩

instance : LE Double := ⟨fun x y => Double.le x y = true⟩

instance (x y : Double) : Decidable (x < y) :=
  inferInstanceAs (Decidable (Double.lt x y = true))

instance (x y : Double) : Decidable (x ≤ y) :=
  inferInstanceAs (Decidable (Double.le x y = true))

/-- The exact value of a finite double, in units of 2^-1074 (0 for NaN and the
infinities, which have none). -/
def Double.units : Double → Int
  | .fin k => k
  | _ => 0

/-- The sum `x + y` is exact: both are finite and their exact sum is a double,
so that nothing is rounded. -/
def Double.exact_add : Double → Double → Prop
  | .fin a, .fin b => Double.round (a + b) = .fin (a + b)
  | _, _ => False

/-- The difference `x - y` is exact: both are finite and their exact
difference is a double, so that nothing is rounded. -/
def Double.exact_sub : Double → Double → Prop
  | .fin a, .fin b => Double.round (a - b) = .fin (a - b)
  | _, _ => False

/-- The capacity of the global account array. -/
def MAX_ACCOUNTS : Nat := 100

/-- The `Account` record. -/
structure Account where
  id : Int
  name : String
  username : String
  password : String
  balance : Double
  active : Bool
  deriving DecidableEq, Repr

/-- A zero-initialised slot of the global array. -/
instance : Inhabited Account := ⟨⟨0, "", "", "", 0, false⟩⟩

/-- The global storage: the slots `accounts[0 .. account_count)`. -/
structure Store where
  accounts : List Account
  deriving DecidableEq, Repr

/-- The global counter `account_count`. -/
def Store.account_count (s : Store) : Nat := s.accounts.length

/-- The store at program start: `account_count = 0`. -/
def Store.empty : Store := ⟨[]⟩

/-- Reading of `accounts[i]` in a list of slots. -/
def nth : List Account → Nat → Account
  | [], _ => default
  | a :: _, 0 => a
  | _ :: l, i + 1 => nth l i

/-- In-place change of `accounts[i]` in a list of slots. -/
def modify (f : Account → Account) : List Account → Nat → List Account
  | [], _ => []
  | a :: l, 0 => f a :: l
  | a :: l, i + 1 => a :: modify f l i

/-- The slot `accounts[i]`. -/
def Store.acct (s : Store) (i : Nat) : Account := nth s.accounts i

/-- The statement `accounts[i].balance += d`. -/
def Store.addBalance (s : Store) (i : Nat) (d : Double) : Store :=
  ⟨modify (fun a => { a with balance := a.balance + d }) s.accounts i⟩

/-- The statement `accounts[i].balance -= d`. -/
def Store.subBalance (s : Store) (i : Nat) (d : Double) : Store :=
  ⟨modify (fun a => { a with balance := a.balance - d }) s.accounts i⟩

/-- The statement `accounts[i].balance = 0.0`. -/
def Store.zeroBalance (s : Store) (i : Nat) : Store :=
  ⟨modify (fun a => { a with balance := 0 }) s.accounts i⟩

/-- The statement `accounts[i].active = 0`. -/
def Store.deactivate (s : Store) (i : Nat) : Store :=
  ⟨modify (fun a => { a with active := false }) s.accounts i⟩

/-- The lines a function can print, prompts and banners left out. -/
inductive Msg where
  /-- Line "Sorry, maximum number of accounts reached" (CapacityExceeded). -/
  | maxAccountsReached
  /-- Line "That username is already taken" (DuplicateUsername). -/
  | usernameTaken
  /-- Line "Invalid input." -/
  | invalidInput
  /-- Line "Deposit cannot be negative." (InvalidAmount, on creation). -/
  | depositNegative
  /-- Line "Account created successfully!" -/
  | accountCreated
  /-- Line "Invalid number." -/
  | invalidNumber
  /-- Line "Please enter an amount greater than 0." (InvalidAmount). -/
  | amountNotPositive
  /-- Line "Deposit successful." -/
  | depositSuccessful
  /-- Line "Insufficient balance." (InsufficientFunds). -/
  | insufficientBalance
  /-- Line "Withdrawal successful." -/
  | withdrawalSuccessful
  /-- Line "No active account with that username." (NotFound). -/
  | noActiveUsername
  /-- Line "No active account with that ID." (NotFound). -/
  | noActiveId
  /-- Line "Invalid option." -/
  | invalidOption
  /-- Line "Cannot transfer to the same account." (SameAccount). -/
  | sameAccount
  /-- Line "Invalid amount." -/
  | invalidAmount
  /-- Line "Amount must be > 0." (InvalidAmount, on transfer). -/
  | amountMustBePositive
  /-- Line "Transfer successful." -/
  | transferSuccessful
  /-- Line "Account already inactive." (AlreadyClosed). -/
  | alreadyInactive
  /-- Line "All money withdrawn. Balance is now 0.00" -/
  | allMoneyWithdrawn
  /-- Line "No such recipient username found or recipient inactive." (NotFound). -/
  | noSuchRecipient
  /-- Line "Transferred ... Your balance is now 0.00" -/
  | transferredAll
  /-- Line "Account deleted successfully. Goodbye!" -/
  | accountDeleted
  /-- Line "Account deletion cancelled." -/
  | deletionCancelled
  /-- Line "No such username or account inactive." (NotFound, on login). -/
  | noSuchUsername
  /-- Line "Incorrect password." (InvalidCredentials). -/
  | incorrectPassword
  /-- Line "Welcome, ...!" -/
  | welcome
  deriving DecidableEq, Repr

/-- The scan `for (i = start; i < account_count; ++i) if (p accounts[i]) return i;`
followed by `return -1`, over the slots from `start` on. -/
def find_loop (p : Account → Bool) : List Account → Nat → Int
  | [], _ => -1
  | a :: l, i => if p a then (i : Int) else find_loop p l (i + 1)

/-- The function `find_by_username`: index of the first active account with
that username, or -1. -/
def find_by_username (s : Store) (username : String) : Int :=
  find_loop (fun a => a.active && a.username == username) s.accounts 0

/-- The function `find_by_id`: index of the first active account with that id,
or -1. -/
def find_by_id (s : Store) (id : Int) : Int :=
  find_loop (fun a => a.active && a.id == id) s.accounts 0

/-- The recipient lookup of `transfer_money` (the `if (opt == 1) .. else if
(opt == 2) .. else ..` block): the index found, or the line printed before the
early `return`. -/
def transfer_money.resolve (s : Store) (opt : Int) (target_user : Option String)
    (target_id : Option Int) : Except Msg Int :=
  if opt = 1 then
    match target_user with
    | none => .error .invalidInput
    | some u =>
      let to_idx := find_by_username s u
      if to_idx = -1 then .error .noActiveUsername else .ok to_idx
  else if opt = 2 then
    match target_id with
    | none => .error .invalidInput
    | some n =>
      let to_idx := find_by_id s n
      if to_idx = -1 then .error .noActiveId else .ok to_idx
  else .error .invalidOption

/-- The function `transfer_money(from_idx)`.  `opt`, `target_user`, `target_id`
and `amt` are what the four `scanf` calls deliver (the second or the third is
made, by `opt`). -/
def transfer_money (s : Store) (from_idx : Nat) (opt : Option Int)
    (target_user : Option String) (target_id : Option Int) (amt : Option Double) :
    Store × List Msg :=
  match opt with
  | none => (s, [.invalidInput])
  | some opt =>
    match transfer_money.resolve s opt target_user target_id with
    | .error m => (s, [m])
    | .ok to_idx =>
      if to_idx = (from_idx : Int) then (s, [.sameAccount])
      else
        match amt with
        | none => (s, [.invalidAmount])
        | some amt =>
          if amt ≤ 0 then (s, [.amountMustBePositive])
          else if amt > (s.acct from_idx).balance then (s, [.insufficientBalance])
          else
            let s1 := s.subBalance from_idx amt
            let s2 := s1.addBalance to_idx.toNat amt
            (s2, [.transferSuccessful])

/-- A retry loop printed `m` and went round again: `m` is put in front of what
the rest of the loop prints. -/
def said {α : Type} (m : Msg) (r : Option (α × List Msg)) : Option (α × List Msg) :=
  r.map (fun x => (x.1, m :: x.2))

/-- The function `deposit_money(idx)`.  The list holds what the successive
`scanf("%lf", &amt)` calls of the `while (1)` loop deliver. -/
def deposit_money (s : Store) (idx : Nat) : List (Option Double) → Option (Store × List Msg)
  | [] => none
  | none :: rest => said .invalidNumber (deposit_money s idx rest)
  | some amt :: rest =>
    if amt ≤ 0 then said .amountNotPositive (deposit_money s idx rest)
    else some (s.addBalance idx amt, [.depositSuccessful])

/-- The function `withdraw_money(idx)`.  The list holds what the successive
`scanf("%lf", &amt)` calls of the `while (1)` loop deliver. -/
def withdraw_money (s : Store) (idx : Nat) : List (Option Double) → Option (Store × List Msg)
  | [] => none
  | none :: rest => said .invalidNumber (withdraw_money s idx rest)
  | some amt :: rest =>
    if amt ≤ 0 then said .amountNotPositive (withdraw_money s idx rest)
    else if amt > (s.acct idx).balance then said .insufficientBalance (withdraw_money s idx rest)
    else some (s.subBalance idx amt, [.withdrawalSuccessful])

/-- The block `if (a->balance > 0.0) { .. }` of `delete_account`: the store and
the line printed once the balance has been driven to zero, or the line printed
before the early `return`. -/
def delete_account.resolve (s : Store) (idx : Nat) (opt : Option Int)
    (target_user : Option String) : Except Msg (Store × List Msg) :=
  if (s.acct idx).balance > 0 then
    match opt with
    | none => .error .invalidInput
    | some opt =>
      if opt = 1 then .ok (s.zeroBalance idx, [.allMoneyWithdrawn])
      else if opt = 2 then
        let to_transfer := (s.acct idx).balance
        match target_user with
        | none => .error .invalidInput
        | some u =>
          let to_idx := find_by_username s u
          if to_idx = -1 then .error .noSuchRecipient
          else if to_idx = (idx : Int) then .error .sameAccount
          else .ok ((s.addBalance to_idx.toNat to_transfer).zeroBalance idx, [.transferredAll])
      else .error .invalidOption
  else .ok (s, [])

/-- The function `delete_account(idx)`.  `opt` and `target_user` are what the
two `scanf` calls deliver, `ch` is what `getchar()` delivers for the final
confirmation (`none` at end of input). -/
def delete_account (s : Store) (idx : Nat) (opt : Option Int)
    (target_user : Option String) (ch : Option Char) : Store × List Msg :=
  if (s.acct idx).active = false then (s, [.alreadyInactive])
  else
    match delete_account.resolve s idx opt target_user with
    | .error m => (s, [m])
    | .ok (s1, out) =>
      if ch = some 'y' ∨ ch = some 'Y' then (s1.deactivate idx, out ++ [.accountDeleted])
      else (s1, out ++ [.deletionCancelled])

/-- The username loop of `create_account`: the first delivered username that
`find_by_username` does not find.  The list holds what the successive
`scanf("%49s", temp_user)` calls deliver. -/
def create_account.read_username (s : Store) : List (Option String) → Option (String × List Msg)
  | [] => none
  | none :: rest => create_account.read_username s rest
  | some temp_user :: rest =>
    if find_by_username s temp_user ≠ -1 then
      said .usernameTaken (create_account.read_username s rest)
    else some (temp_user, [])

/-- The initial-deposit loop of `create_account`: the first delivered amount
that is not negative.  The list holds what the successive `scanf("%lf", &init)`
calls deliver. -/
def create_account.read_init : List (Option Double) → Option (Double × List Msg)
  | [] => none
  | none :: rest => said .invalidInput (create_account.read_init rest)
  | some init :: rest =>
    if init < 0 then said .depositNegative (create_account.read_init rest)
    else some (init, [])

/-- The function `create_account()`.  `name` is the line read for the full name,
`users` feeds the username loop, `password` is the word read for the password,
`inits` feeds the initial-deposit loop. -/
def create_account (s : Store) (name : String) (users : List (Option String))
    (password : String) (inits : List (Option Double)) : Option (Store × List Msg) :=
  if s.account_count ≥ MAX_ACCOUNTS then some (s, [.maxAccountsReached])
  else
    match create_account.read_username s users with
    | none => none
    | some (username, out1) =>
      match create_account.read_init inits with
      | none => none
      | some (init, out2) =>
        let acc : Account :=
          ⟨(s.account_count : Int) + 1, name, username, password, init, true⟩
        some (⟨s.accounts ++ [acc]⟩, out1 ++ out2 ++ [.accountCreated])

/-- The function `login()`: the index of the logged-in account, or -1.  `uname`
and `pass` are what the two `scanf` calls deliver. -/
def login (s : Store) (uname pass : Option String) : Int × List Msg :=
  match uname with
  | none => (-1, [])
  | some u =>
    match pass with
    | none => (-1, [])
    | some p =>
      let idx := find_by_username s u
      if idx = -1 then (-1, [.noSuchUsername])
      else if (s.acct idx.toNat).password ≠ p then (-1, [.incorrectPassword])
      else (idx, [.welcome])

/-- The state of a run: the store, and the index `idx` of the running
`user_session(idx)`, or `none` while the program is in `main_menu`. -/
structure Sys where
  store : Store
  session : Option Nat
  deriving DecidableEq, Repr

/-- The state at program start. -/
def Sys.init : Sys := ⟨Store.empty, none⟩

/-- One round of a menu together with everything typed during it. -/
inductive Cmd where
  /-- Option 1 of `main_menu`. -/
  | create (name : String) (users : List (Option String)) (password : String)
      (inits : List (Option Double))
  /-- Option 2 of `main_menu`. -/
  | login (uname pass : Option String)
  /-- Choice 1 of `user_session`. -/
  | view
  /-- Choice 2 of `user_session`. -/
  | deposit (amts : List (Option Double))
  /-- Choice 3 of `user_session`. -/
  | withdraw (amts : List (Option Double))
  /-- Choice 4 of `user_session`. -/
  | transfer (opt : Option Int) (target_user : Option String) (target_id : Option Int)
      (amt : Option Double)
  /-- Choice 5 of `user_session`. -/
  | delete (opt : Option Int) (target_user : Option String) (ch : Option Char)
  /-- Choice 6 of `user_session`. -/
  | logout

/-- One round of `main_menu` (no session running) or of `user_session(idx)`.
`none` when the command is not on the current menu or the function called
never returns. -/
def step (st : Sys) (c : Cmd) : Option Sys :=
  match st.session, c with
  | none, .create name users password inits =>
    (create_account st.store name users password inits).map (fun r => ⟨r.1, none⟩)
  | none, .login uname pass =>
    let idx := (login st.store uname pass).1
    if idx ≠ -1 then some ⟨st.store, some idx.toNat⟩ else some st
  | some _, .view => some st
  | some idx, .deposit amts =>
    (deposit_money st.store idx amts).map (fun r => ⟨r.1, some idx⟩)
  | some idx, .withdraw amts =>
    (withdraw_money st.store idx amts).map (fun r => ⟨r.1, some idx⟩)
  | some idx, .transfer opt target_user target_id amt =>
    some ⟨(transfer_money st.store idx opt target_user target_id amt).1, some idx⟩
  | some idx, .delete opt target_user ch =>
    let s1 := (delete_account st.store idx opt target_user ch).1
    if (s1.acct idx).active = false then some ⟨s1, none⟩ else some ⟨s1, some idx⟩
  | some _, .logout => some ⟨st.store, none⟩
  | _, _ => none

/-- The run of a list of menu rounds. -/
def run (st : Sys) : List Cmd → Option Sys
  | [] => some st
  | c :: cs =>
    match step st c with
    | none => none
    | some st1 => run st1 cs

/-- The states a run of the program can be in between two menu rounds. -/
inductive Reachable : Sys → Prop where
  | init : Reachable Sys.init
  | step (st st1 : Sys) (c : Cmd) : Reachable st → step st c = some st1 → Reachable st1

/-- A store with two active accounts, used to exercise the operations. -/
def demo : Store :=
  ⟨[⟨1, "Alice A", "alice", "pw1", 100, true⟩, ⟨2, "Bob B", "bob", "pw2", 0, true⟩]⟩

/-- How one slot may differ after a money operation or a closure: identity
fields are kept and a closed slot is kept whole. -/
def SlotStep (a b : Account) : Prop :=
  b.id = a.id ∧ b.name = a.name ∧ b.username = a.username ∧ b.password = a.password ∧
  (a.active = false → b = a)

/-- How the store may differ after a money operation or a closure:
`account_count` is kept and every slot makes a `SlotStep`. -/
def StoreStep (s t : Store) : Prop :=
  t.account_count = s.account_count ∧ ∀ i, SlotStep (s.acct i) (t.acct i)

/-- The invariant of the runs: ids are the positions plus one, active usernames
are pairwise different, the running session belongs to an active account, and
the array is not overrun. -/
def Inv (st : Sys) : Prop :=
  (∀ i, i < st.store.account_count → (st.store.acct i).id = (i : Int) + 1) ∧
  (∀ i j, (st.store.acct i).active = true → (st.store.acct j).active = true →
    (st.store.acct i).username = (st.store.acct j).username → i = j) ∧
  (∀ idx, st.session = some idx → (st.store.acct idx).active = true) ∧
  st.store.account_count ≤ MAX_ACCOUNTS

/-- A run: `alice` opens an account with 100, `bob` one with 0 (after a
username already taken and a negative first deposit), `alice` logs in, sends 40
to `bob` and logs out. -/
def demo_cmds : List Cmd :=
  [.create "Alice A" [some "alice"] "pw1" [some 100],
   .create "Bob B" [none, some "alice", some "bob"] "pw2" [some (-1), some 0],
   .login (some "alice") (some "pw1"),
   .transfer (some 1) (some "bob") none (some 40),
   .logout]

/-- The state at the end of `demo_cmds`. -/
def demo_sys : Sys :=
  ⟨⟨[⟨1, "Alice A", "alice", "pw1", 100 - 40, true⟩,
     ⟨2, "Bob B", "bob", "pw2", 0 + 40, true⟩]⟩, none⟩

/-- The state after `carol` has opened an account with 7 in `demo_sys`. -/
def demo_sys_carol : Sys :=
  ⟨⟨demo_sys.store.accounts ++ [⟨3, "Carol C", "carol", "pw3", 7, true⟩]⟩, none⟩

/-- A run: `alice` opens an account with nothing in it, `bob` one with 50,
`alice` logs in and closes her account. -/
def closing_cmds : List Cmd :=
  [.create "Alice A" [some "alice"] "pw1" [some 0],
   .create "Bob B" [some "bob"] "pw2" [some 50],
   .login (some "alice") (some "pw1"),
   .delete none none (some 'y')]

/-- The state at the end of `closing_cmds`. -/
def closed_sys : Sys :=
  ⟨⟨[⟨1, "Alice A", "alice", "pw1", 0, false⟩, ⟨2, "Bob B", "bob", "pw2", 50, true⟩]⟩,
    none⟩

/-- The state after a third customer has opened an account in `closed_sys`
under the username of the closed one. -/
def reused_sys : Sys :=
  ⟨⟨[⟨1, "Alice A", "alice", "pw1", 0, false⟩, ⟨2, "Bob B", "bob", "pw2", 50, true⟩,
     ⟨3, "Alice B", "alice", "pw9", 5, true⟩]⟩, none⟩

/-- The exact sum, in units of 2^-1074, of the balances of the active accounts
in a list of slots that hold a finite balance. -/
def active_total : List Account → Int
  | [] => 0
  | a :: l => (if a.active = true then a.balance.units else 0) + active_total l

/-- The exact sum, in units of 2^-1074, of the balances of the active accounts
of the store that hold a finite balance. -/
def Store.active_total (s : Store) : Int := Bank.active_total s.accounts

/-- The commands `cs` typed `n` times over. -/
def cycles : Nat → List Cmd → List Cmd
  | 0, _ => []
  | n + 1, cs => cs ++ cycles n cs

/-- A run: a hundred times over, a customer opens an account with nothing in
it under the username `alice`, logs in and closes it. -/
def full_cmds : List Cmd :=
  cycles 100 [.create "Alice A" [some "alice"] "pw1" [some 0],
    .login (some "alice") (some "pw1"), .delete none none (some 'y')]

/-- The state at the end of `full_cmds`: a hundred closed accounts. -/
def full_sys : Sys :=
  ⟨⟨(List.range 100).map
    (fun i => ⟨(i : Int) + 1, "Alice A", "alice", "pw1", 0, false⟩)⟩, none⟩

/-- The state at the end of `demo_cmds` once `alice` has logged in again. -/
def demo_session : Sys := ⟨demo_sys.store, some 0⟩

/-- A store in which `alice` holds 1e17 and `bob` holds 5. -/
def rich : Store :=
  ⟨[⟨1, "Alice A", "alice", "pw1", 100000000000000000, true⟩,
    ⟨2, "Bob B", "bob", "pw2", 5, true⟩]⟩

/-- A run: `alice` opens an account with 1e17, `bob` one with 5, and `alice`
logs in. -/
def rich_cmds : List Cmd :=
  [.create "Alice A" [some "alice"] "pw1" [some 100000000000000000],
   .create "Bob B" [some "bob"] "pw2" [some 5],
   .login (some "alice") (some "pw1")]

/-- The state at the end of `rich_cmds`. -/
def rich_session : Sys := ⟨rich, some 0⟩

/-- A run: `alice` opens an account and types `nan` for the first deposit. -/
def nan_cmds : List Cmd :=
  [.create "Alice A" [some "alice"] "pw1" [some Double.nan]]

/-- The state at the end of `nan_cmds`. -/
def nan_sys : Sys := ⟨⟨[⟨1, "Alice A", "alice", "pw1", Double.nan, true⟩]⟩, none⟩

/-- A run: `alice` opens an account and types `nan` for the first deposit, logs
in, and closes the account answering 'y'. -/
def nan_closing_cmds : List Cmd :=
  [.create "Alice A" [some "alice"] "pw1" [some Double.nan],
   .login (some "alice") (some "pw1"),
   .delete none none (some 'y')]

/-- The state at the end of `nan_closing_cmds`. -/
def nan_closed_sys : Sys :=
  ⟨⟨[⟨1, "Alice A", "alice", "pw1", Double.nan, false⟩]⟩, none⟩

/-! ## The arithmetic of `double` -/

/-- The constant `0.0`. -/
theorem double_zero : (0 : Double) = Double.fin 0 := rfl

/-- The arithmetic at work: 100 - 40 is 60; 0.1 + 0.2 is 0.30000000000000004
(0x3FB999999999999A + 0x3FC999999999999A = 0x3FD3333333333334); 1e17 + 1 is
1e17 and 1e17 + 9 is 1e17 + 16, the doubles next to 1e17 being 16 apart; a tie
goes to the even significand; the largest double plus itself overflows; an
infinity minus itself and anything plus NaN are NaN; and NaN is neither below,
nor equal to, nor above 0. -/
theorem double_arithmetic_examples :
    (100 : Double) - 40 = 60 ∧
    Double.fin ((3602879701896397 <<< 1019 : Nat) : Int)
        + Double.fin ((3602879701896397 <<< 1020 : Nat) : Int)
      = Double.fin ((5404319552844596 <<< 1020 : Nat) : Int) ∧
    (100000000000000000 : Double) + 1 = 100000000000000000 ∧
    (100000000000000000 : Double) + 9 = 100000000000000016 ∧
    Double.fin ((1 <<< 53 : Nat) : Int) + Double.fin 1 = Double.fin ((1 <<< 53 : Nat) : Int) ∧
    Double.fin (((1 <<< 53) + 2 : Nat) : Int) + Double.fin 1
      = Double.fin (((1 <<< 53) + 4 : Nat) : Int) ∧
    Double.fin ((((1 <<< 53) - 1) <<< 2045 : Nat) : Int)
        + Double.fin ((((1 <<< 53) - 1) <<< 2045 : Nat) : Int)
      = Double.inf false ∧
    Double.inf false - Double.inf false = Double.nan ∧
    (5 : Double) + Double.nan = Double.nan ∧
    ¬ (Double.nan < 0) ∧ ¬ (Double.nan ≤ 0) ∧ ¬ (Double.nan > 0) ∧
    ¬ ((0 : Double) ≤ Double.nan) := by
  decide

theorem double_not_le_of_lt (x y : Double) (h : x < y) : ¬ y ≤ x := by
  intro h2
  have h1 : Double.lt x y = true := h
  have h3 : Double.le y x = true := h2
  cases x <;> cases y <;> simp [Double.lt, Double.le] at h1 h3
  all_goals first
    | omega
    | (rw [h1] at h3; cases h3)
    | (rename_i a b; cases a <;> cases b <;> simp at h1 h3)

theorem double_not_lt_of_le (x y : Double) (h : x ≤ y) : ¬ y < x :=
  fun h2 => double_not_le_of_lt y x h2 h

theorem double_lt_of_le_of_lt (x y z : Double) (h1 : x ≤ y) (h2 : y < z) : x < z := by
  have a1 : Double.le x y = true := h1
  have a2 : Double.lt y z = true := h2
  show Double.lt x z = true
  cases x <;> cases y <;> cases z <;> simp [Double.lt, Double.le] at a1 a2 ⊢
  all_goals first
    | omega
    | (rename_i a b c; cases a <;> cases b <;> cases c <;> simp at a1 a2 ⊢)

theorem double_lt_irrefl (x : Double) : ¬ x < x := by
  intro h
  have h1 : Double.lt x x = true := h
  cases x <;> simp [Double.lt] at h1

/-- An exact sum of two doubles is the double of the sum of their units. -/
theorem double_add_of_exact (x y : Double) (h : Double.exact_add x y) :
    x + y = Double.fin (x.units + y.units) := by
  cases x <;> cases y <;> simp only [Double.exact_add] at h
  exact h

/-- An exact difference of two doubles is the double of the difference of
their units. -/
theorem double_sub_of_exact (x y : Double) (h : Double.exact_sub x y) :
    x - y = Double.fin (x.units - y.units) := by
  cases x <;> cases y <;> simp only [Double.exact_sub] at h
  rename_i a b
  show Double.round (a + -b) = _
  rw [← sub_eq_add_neg]
  exact h


/-- Two doubles that are not NaN are comparable. -/
theorem double_le_of_not_lt (x y : Double) (h : ¬ x < y) (hx : x ≠ Double.nan)
    (hy : y ≠ Double.nan) : y ≤ x := by
  have h1 : ¬ Double.lt x y = true := h
  show Double.le y x = true
  cases x <;> cases y <;> simp [Double.lt, Double.le] at h1 hx hy ⊢
  all_goals first
    | omega
    | (rename_i a b; cases a <;> cases b <;> simp at h1 ⊢)

/-- The constant `0.0` is zero units. -/
theorem double_units_zero : (0 : Double).units = 0 := rfl
/-! ## Slots: reading and writing -/

theorem length_modify (f : Account → Account) (l : List Account) (i : Nat) :
    (modify f l i).length = l.length := by
  induction l generalizing i with
  | nil => rfl
  | cons a l ih => cases i <;> simp [modify, ih]

theorem nth_modify_eq (f : Account → Account) (l : List Account) (i : Nat)
    (h : i < l.length) : nth (modify f l i) i = f (nth l i) := by
  induction l generalizing i with
  | nil => simp at h
  | cons a l ih =>
    cases i with
    | zero => rfl
    | succ i => exact ih i (by simpa using h)

theorem nth_modify_ne (f : Account → Account) (l : List Account) (i j : Nat)
    (h : j ≠ i) : nth (modify f l i) j = nth l j := by
  induction l generalizing i j with
  | nil => rfl
  | cons a l ih =>
    cases i with
    | zero =>
      cases j with
      | zero => exact absurd rfl h
      | succ j => rfl
    | succ i =>
      cases j with
      | zero => rfl
      | succ j => exact ih i j (fun e => h (by rw [e]))

theorem nth_of_length_le (l : List Account) (i : Nat) (h : l.length ≤ i) :
    nth l i = default := by
  induction l generalizing i with
  | nil => rfl
  | cons a l ih =>
    cases i with
    | zero => simp at h
    | succ i => exact ih i (by simpa using h)

theorem modify_of_length_le (f : Account → Account) (l : List Account) (i : Nat)
    (h : l.length ≤ i) : modify f l i = l := by
  induction l generalizing i with
  | nil => rfl
  | cons a l ih =>
    cases i with
    | zero => simp at h
    | succ i => simp [modify, ih i (by simpa using h)]

/-- Two lists of slots with the same length and the same slots are equal. -/
theorem ext_nth (l₁ l₂ : List Account) (hlen : l₁.length = l₂.length)
    (h : ∀ i, i < l₁.length → nth l₁ i = nth l₂ i) : l₁ = l₂ := by
  induction l₁ generalizing l₂ with
  | nil =>
    cases l₂ with
    | nil => rfl
    | cons b l₂ => simp at hlen
  | cons a l₁ ih =>
    cases l₂ with
    | nil => simp at hlen
    | cons b l₂ =>
      have h0 : a = b := h 0 (by simp)
      have ht : l₁ = l₂ :=
        ih l₂ (by simpa using hlen) (fun i hi => h (i + 1) (by simpa using hi))
      rw [h0, ht]

/-! ## The lookups -/

/-- What the scan returns: -1 when no slot satisfies `p`, and otherwise the
index of the first slot that does. -/
theorem find_loop_spec (p : Account → Bool) (l : List Account) (start : Nat) :
    (find_loop p l start = -1 ∧ ∀ k, k < l.length → p (nth l k) = false) ∨
    (∃ k, k < l.length ∧ find_loop p l start = ((start + k : Nat) : Int) ∧
      p (nth l k) = true ∧ ∀ j, j < k → p (nth l j) = false) := by
  induction l generalizing start with
  | nil => left; exact ⟨rfl, fun k hk => by simp at hk⟩
  | cons a l ih =>
    by_cases hp : p a = true
    · right
      refine ⟨0, by simp, ?_, by simpa [nth] using hp, fun j hj => by omega⟩
      simp [find_loop, hp]
    · have hpf : p a = false := by simpa using hp
      rcases ih (start + 1) with ⟨h1, h2⟩ | ⟨k, hk, h1, h2, h3⟩
      · left
        refine ⟨by simp [find_loop, hpf, h1], fun k hk => ?_⟩
        cases k with
        | zero => simpa [nth] using hpf
        | succ k => exact h2 k (by simpa using hk)
      · right
        refine ⟨k + 1, by simpa using hk, ?_, by simpa [nth] using h2, fun j hj => ?_⟩
        · simp only [find_loop, hpf, h1]
          simp
          omega
        · cases j with
          | zero => simpa [nth] using hpf
          | succ j => exact h3 j (by omega)

/-- A lookup by username that does not return -1 returns the index of an active
account, below `account_count`, with that username. -/
theorem find_by_username_found (s : Store) (u : String) (i : Nat)
    (h : find_by_username s u = (i : Int)) :
    i < s.account_count ∧ (s.acct i).active = true ∧ (s.acct i).username = u := by
  unfold find_by_username at h
  rcases find_loop_spec (fun a => a.active && a.username == u) s.accounts 0 with
    ⟨h1, _⟩ | ⟨k, hk, h1, h2, _⟩
  · rw [h1] at h; omega
  · rw [h1] at h
    have hik : i = k := by omega
    subst hik
    simp only [Bool.and_eq_true, beq_iff_eq] at h2
    exact ⟨hk, h2.1, h2.2⟩

/-- A lookup by id that does not return -1 returns the index of an active
account, below `account_count`, with that id. -/
theorem find_by_id_found (s : Store) (n : Int) (i : Nat)
    (h : find_by_id s n = (i : Int)) :
    i < s.account_count ∧ (s.acct i).active = true ∧ (s.acct i).id = n := by
  unfold find_by_id at h
  rcases find_loop_spec (fun a => a.active && a.id == n) s.accounts 0 with
    ⟨h1, _⟩ | ⟨k, hk, h1, h2, _⟩
  · rw [h1] at h; omega
  · rw [h1] at h
    have hik : i = k := by omega
    subst hik
    simp only [Bool.and_eq_true, beq_iff_eq] at h2
    exact ⟨hk, h2.1, h2.2⟩

/-- A lookup returns -1 or an index below `account_count`. -/
theorem find_loop_range (p : Account → Bool) (l : List Account) :
    find_loop p l 0 = -1 ∨ ∃ i : Nat, i < l.length ∧ find_loop p l 0 = (i : Int) := by
  rcases find_loop_spec p l 0 with ⟨h1, _⟩ | ⟨k, hk, h1, _, _⟩
  · exact Or.inl h1
  · exact Or.inr ⟨k, hk, by simpa using h1⟩

/-! ## The four writes -/

theorem account_count_addBalance (s : Store) (i : Nat) (d : Double) :
    (s.addBalance i d).account_count = s.account_count :=
  length_modify _ _ _

theorem account_count_subBalance (s : Store) (i : Nat) (d : Double) :
    (s.subBalance i d).account_count = s.account_count :=
  length_modify _ _ _

theorem account_count_zeroBalance (s : Store) (i : Nat) :
    (s.zeroBalance i).account_count = s.account_count :=
  length_modify _ _ _

theorem account_count_deactivate (s : Store) (i : Nat) :
    (s.deactivate i).account_count = s.account_count :=
  length_modify _ _ _

theorem acct_addBalance_eq (s : Store) (i : Nat) (d : Double) (h : i < s.account_count) :
    (s.addBalance i d).acct i = { s.acct i with balance := (s.acct i).balance + d } :=
  nth_modify_eq _ _ _ h

theorem acct_subBalance_eq (s : Store) (i : Nat) (d : Double) (h : i < s.account_count) :
    (s.subBalance i d).acct i = { s.acct i with balance := (s.acct i).balance - d } :=
  nth_modify_eq _ _ _ h

theorem acct_zeroBalance_eq (s : Store) (i : Nat) (h : i < s.account_count) :
    (s.zeroBalance i).acct i = { s.acct i with balance := 0 } :=
  nth_modify_eq _ _ _ h

theorem acct_deactivate_eq (s : Store) (i : Nat) (h : i < s.account_count) :
    (s.deactivate i).acct i = { s.acct i with active := false } :=
  nth_modify_eq _ _ _ h

theorem acct_addBalance_ne (s : Store) (i j : Nat) (d : Double) (h : j ≠ i) :
    (s.addBalance i d).acct j = s.acct j :=
  nth_modify_ne _ _ _ _ h

theorem acct_subBalance_ne (s : Store) (i j : Nat) (d : Double) (h : j ≠ i) :
    (s.subBalance i d).acct j = s.acct j :=
  nth_modify_ne _ _ _ _ h

theorem acct_zeroBalance_ne (s : Store) (i j : Nat) (h : j ≠ i) :
    (s.zeroBalance i).acct j = s.acct j :=
  nth_modify_ne _ _ _ _ h

theorem acct_deactivate_ne (s : Store) (i j : Nat) (h : j ≠ i) :
    (s.deactivate i).acct j = s.acct j :=
  nth_modify_ne _ _ _ _ h

/-- Two stores with the same `account_count` and the same slots are equal. -/
theorem store_ext_acct (s₁ s₂ : Store) (hlen : s₁.account_count = s₂.account_count)
    (h : ∀ i, i < s₁.account_count → s₁.acct i = s₂.acct i) : s₁ = s₂ := by
  cases s₁ with
  | mk l₁ =>
    cases s₂ with
    | mk l₂ => exact congrArg Store.mk (ext_nth l₁ l₂ hlen h)

/-- What the recipient lookup of `transfer_money` delivers when it delivers an
index: the index of an active account below `account_count`. -/
theorem transfer_resolve_ok (s : Store) (opt : Int) (target_user : Option String)
    (target_id : Option Int) (t : Int)
    (h : transfer_money.resolve s opt target_user target_id = .ok t) :
    ∃ i : Nat, t = (i : Int) ∧ i < s.account_count ∧ (s.acct i).active = true := by
  unfold transfer_money.resolve at h
  split_ifs at h with h1 h2
  · cases target_user with
    | none => simp at h
    | some u =>
      simp only at h
      split_ifs at h with h3
      rcases find_loop_range (fun a => a.active && a.username == u) s.accounts with
        hm | ⟨i, _, hi⟩
      · exact absurd hm h3
      · have hi' : find_by_username s u = (i : Int) := hi
        have ht : t = (i : Int) := by
          rw [← hi']; exact (Except.ok.inj h).symm
        have := find_by_username_found s u i hi'
        exact ⟨i, ht, this.1, this.2.1⟩
  · cases target_id with
    | none => simp at h
    | some n =>
      simp only at h
      split_ifs at h with h3
      rcases find_loop_range (fun a => a.active && a.id == n) s.accounts with
        hm | ⟨i, _, hi⟩
      · exact absurd hm h3
      · have hi' : find_by_id s n = (i : Int) := hi
        have ht : t = (i : Int) := by
          rw [← hi']; exact (Except.ok.inj h).symm
        have := find_by_id_found s n i hi'
        exact ⟨i, ht, this.1, this.2.1⟩

/-- A lookup returns -1 exactly when no slot below `account_count` satisfies the
test. -/
theorem find_loop_eq_neg_one (p : Account → Bool) (l : List Account) :
    find_loop p l 0 = -1 ↔ ∀ k, k < l.length → p (nth l k) = false := by
  rcases find_loop_spec p l 0 with ⟨h1, h2⟩ | ⟨k, hk, h1, h2, _⟩
  · exact ⟨fun _ => h2, fun _ => h1⟩
  · constructor
    · intro h; rw [h1] at h; omega
    · intro h; rw [h k hk] at h2; cases h2

/-- The lookup by username returns -1 exactly when no active account has that
username. -/
theorem find_by_username_eq_neg_one (s : Store) (u : String) :
    find_by_username s u = -1 ↔
      ∀ i, i < s.account_count → ¬ ((s.acct i).active = true ∧ (s.acct i).username = u) := by
  unfold find_by_username
  rw [find_loop_eq_neg_one]
  constructor
  · intro h i hi hc
    have := h i hi
    simp [Store.acct] at hc
    simp [hc.1, hc.2] at this
  · intro h i hi
    have := h i hi
    simp only [Store.acct] at this
    cases ha : (nth s.accounts i).active
    · simp
    · simp only [Bool.true_and, beq_eq_false_iff_ne]
      intro hu; exact this ⟨ha, hu⟩

/-- The lookup by id returns -1 exactly when no active account has that id. -/
theorem find_by_id_eq_neg_one (s : Store) (n : Int) :
    find_by_id s n = -1 ↔
      ∀ i, i < s.account_count → ¬ ((s.acct i).active = true ∧ (s.acct i).id = n) := by
  unfold find_by_id
  rw [find_loop_eq_neg_one]
  constructor
  · intro h i hi hc
    have := h i hi
    simp [Store.acct] at hc
    simp [hc.1, hc.2] at this
  · intro h i hi
    have := h i hi
    simp only [Store.acct] at this
    cases ha : (nth s.accounts i).active
    · simp
    · simp only [Bool.true_and, beq_eq_false_iff_ne]
      intro hu; exact this ⟨ha, hu⟩

/-- The two outcomes of `transfer_money`: nothing written and no success line,
or both balances written and the success line. -/
theorem transfer_money_cases (s : Store) (from_idx : Nat) (opt : Option Int)
    (target_user : Option String) (target_id : Option Int) (amt : Option Double) :
    ((transfer_money s from_idx opt target_user target_id amt).1 = s ∧
      (transfer_money s from_idx opt target_user target_id amt).2
        ≠ [Msg.transferSuccessful]) ∨
    (∃ (o : Int) (to_idx : Nat) (a : Double), opt = some o ∧
      transfer_money.resolve s o target_user target_id = .ok (to_idx : Int) ∧
      to_idx ≠ from_idx ∧ to_idx < s.account_count ∧ (s.acct to_idx).active = true ∧
      amt = some a ∧ ¬ a ≤ 0 ∧ ¬ a > (s.acct from_idx).balance ∧
      transfer_money s from_idx opt target_user target_id amt
        = ((s.subBalance from_idx a).addBalance to_idx a, [Msg.transferSuccessful])) := by
  cases opt with
  | none => left; simp [transfer_money]
  | some o =>
    cases hr : transfer_money.resolve s o target_user target_id with
    | error m =>
      left
      have hm : m ≠ Msg.transferSuccessful := by
        unfold transfer_money.resolve at hr
        split_ifs at hr
        · cases target_user with
          | none => simp at hr; rw [← hr]; simp
          | some u =>
            simp only at hr
            split_ifs at hr
            simp at hr; rw [← hr]; simp
        · cases target_id with
          | none => simp at hr; rw [← hr]; simp
          | some n =>
            simp only at hr
            split_ifs at hr
            simp at hr; rw [← hr]; simp
        · simp at hr; rw [← hr]; simp
      simp [transfer_money, hr, hm]
    | ok t =>
      rcases transfer_resolve_ok s o target_user target_id t hr with ⟨i, hi, hlt, hact⟩
      subst hi
      by_cases hsame : (i : Int) = (from_idx : Int)
      · left; simp [transfer_money, hr, hsame]
      · cases amt with
        | none => left; simp [transfer_money, hr, hsame]
        | some a =>
          by_cases h1 : a ≤ 0
          · left; simp [transfer_money, hr, hsame, h1]
          · by_cases h2 : a > (s.acct from_idx).balance
            · left; simp [transfer_money, hr, hsame, h1, h2]
            · right
              refine ⟨o, i, a, rfl, hr, by omega, hlt, hact, rfl, h1, h2, ?_⟩
              simp [transfer_money, hr, hsame, h1, h2]

/-- An active slot lies below `account_count`: the slots past it are the
zero-initialised ones. -/
theorem lt_account_count_of_active (s : Store) (i : Nat)
    (h : (s.acct i).active = true) : i < s.account_count := by
  by_contra hc
  have hd : s.acct i = default := nth_of_length_le _ _ (not_lt.mp hc)
  rw [hd] at h
  cases h

/-! ## The effect of each operation on the slots -/

theorem slotStep_refl (a : Account) : SlotStep a a :=
  ⟨rfl, rfl, rfl, rfl, fun _ => rfl⟩

theorem storeStep_refl (s : Store) : StoreStep s s :=
  ⟨rfl, fun _ => slotStep_refl _⟩

theorem acct_addBalance (s : Store) (i j : Nat) (d : Double) :
    (s.addBalance i d).acct j
      = if j = i ∧ i < s.account_count then
          { s.acct j with balance := (s.acct j).balance + d }
        else s.acct j := by
  split_ifs with h
  · rw [h.1]; exact acct_addBalance_eq s i d h.2
  · by_cases hj : j = i
    · have hlen : s.accounts.length ≤ i := by
        have := fun hlt => h ⟨hj, hlt⟩
        exact not_lt.mp this
      simp only [Store.addBalance, Store.acct, modify_of_length_le _ _ _ hlen]
    · exact acct_addBalance_ne s i j d hj

theorem acct_subBalance (s : Store) (i j : Nat) (d : Double) :
    (s.subBalance i d).acct j
      = if j = i ∧ i < s.account_count then
          { s.acct j with balance := (s.acct j).balance - d }
        else s.acct j := by
  split_ifs with h
  · rw [h.1]; exact acct_subBalance_eq s i d h.2
  · by_cases hj : j = i
    · have hlen : s.accounts.length ≤ i := by
        have := fun hlt => h ⟨hj, hlt⟩
        exact not_lt.mp this
      simp only [Store.subBalance, Store.acct, modify_of_length_le _ _ _ hlen]
    · exact acct_subBalance_ne s i j d hj

theorem acct_zeroBalance (s : Store) (i j : Nat) :
    (s.zeroBalance i).acct j
      = if j = i ∧ i < s.account_count then { s.acct j with balance := 0 }
        else s.acct j := by
  split_ifs with h
  · rw [h.1]; exact acct_zeroBalance_eq s i h.2
  · by_cases hj : j = i
    · have hlen : s.accounts.length ≤ i := by
        have := fun hlt => h ⟨hj, hlt⟩
        exact not_lt.mp this
      simp only [Store.zeroBalance, Store.acct, modify_of_length_le _ _ _ hlen]
    · exact acct_zeroBalance_ne s i j hj

theorem acct_deactivate (s : Store) (i j : Nat) :
    (s.deactivate i).acct j
      = if j = i ∧ i < s.account_count then { s.acct j with active := false }
        else s.acct j := by
  split_ifs with h
  · rw [h.1]; exact acct_deactivate_eq s i h.2
  · by_cases hj : j = i
    · have hlen : s.accounts.length ≤ i := by
        have := fun hlt => h ⟨hj, hlt⟩
        exact not_lt.mp this
      simp only [Store.deactivate, Store.acct, modify_of_length_le _ _ _ hlen]
    · exact acct_deactivate_ne s i j hj

/-- What a returning `deposit_money` has done: one `balance += a` with `a > 0`. -/
theorem deposit_money_effect (s : Store) (idx : Nat) (amts : List (Option Double))
    (s1 : Store) (out : List Msg) (h : deposit_money s idx amts = some (s1, out)) :
    ∃ a : Double, ¬ a ≤ 0 ∧ s1 = s.addBalance idx a := by
  induction amts generalizing out with
  | nil => simp [deposit_money] at h
  | cons x rest ih =>
    cases x with
    | none =>
      simp only [deposit_money, said, Option.map_eq_some'] at h
      rcases h with ⟨⟨s2, out2⟩, h2, h3⟩
      have : s2 = s1 := by simpa using congrArg Prod.fst h3
      exact ih out2 (this ▸ h2)
    | some a =>
      by_cases ha : a ≤ 0
      · simp only [deposit_money, ha, if_true, said, Option.map_eq_some'] at h
        rcases h with ⟨⟨s2, out2⟩, h2, h3⟩
        have : s2 = s1 := by simpa using congrArg Prod.fst h3
        exact ih out2 (this ▸ h2)
      · simp only [deposit_money, ha, if_false, Option.some.injEq, Prod.mk.injEq] at h
        exact ⟨a, ha, h.1.symm⟩

/-- What a returning `withdraw_money` has done: one `balance -= a` with
`0 < a ≤ balance`. -/
theorem withdraw_money_effect (s : Store) (idx : Nat) (amts : List (Option Double))
    (s1 : Store) (out : List Msg) (h : withdraw_money s idx amts = some (s1, out)) :
    ∃ a : Double, ¬ a ≤ 0 ∧ ¬ a > (s.acct idx).balance ∧ s1 = s.subBalance idx a := by
  induction amts generalizing out with
  | nil => simp [withdraw_money] at h
  | cons x rest ih =>
    cases x with
    | none =>
      simp only [withdraw_money, said, Option.map_eq_some'] at h
      rcases h with ⟨⟨s2, out2⟩, h2, h3⟩
      have : s2 = s1 := by simpa using congrArg Prod.fst h3
      exact ih out2 (this ▸ h2)
    | some a =>
      by_cases ha : a ≤ 0
      · simp only [withdraw_money, ha, if_true, said, Option.map_eq_some'] at h
        rcases h with ⟨⟨s2, out2⟩, h2, h3⟩
        have : s2 = s1 := by simpa using congrArg Prod.fst h3
        exact ih out2 (this ▸ h2)
      · by_cases hb : a > (s.acct idx).balance
        · simp only [withdraw_money, ha, if_false, hb, if_true, said,
            Option.map_eq_some'] at h
          rcases h with ⟨⟨s2, out2⟩, h2, h3⟩
          have : s2 = s1 := by simpa using congrArg Prod.fst h3
          exact ih out2 (this ▸ h2)
        · simp only [withdraw_money, ha, if_false, hb, Option.some.injEq,
            Prod.mk.injEq] at h
          exact ⟨a, ha, hb, h.1.symm⟩

theorem slotStep_trans {a b c : Account} (h1 : SlotStep a b) (h2 : SlotStep b c) :
    SlotStep a c := by
  obtain ⟨a1, a2, a3, a4, a5⟩ := h1
  obtain ⟨b1, b2, b3, b4, b5⟩ := h2
  refine ⟨b1.trans a1, b2.trans a2, b3.trans a3, b4.trans a4, ?_⟩
  intro h
  have hb : b = a := a5 h
  rw [hb] at b5
  exact b5 h

theorem storeStep_trans {s t u : Store} (h1 : StoreStep s t) (h2 : StoreStep t u) :
    StoreStep s u :=
  ⟨h2.1.trans h1.1, fun i => slotStep_trans (h1.2 i) (h2.2 i)⟩

/-- A slot whose balance alone is rewritten while it is active makes a
`SlotStep`. -/
theorem slotStep_of_balance (a : Account) (b : Double) (hact : a.active = true) :
    SlotStep a { a with balance := b } :=
  ⟨rfl, rfl, rfl, rfl, fun h => absurd (hact.symm.trans h) (by decide)⟩

theorem storeStep_addBalance (s : Store) (i : Nat) (d : Double)
    (hact : (s.acct i).active = true) : StoreStep s (s.addBalance i d) := by
  refine ⟨account_count_addBalance _ _ _, fun j => ?_⟩
  rw [acct_addBalance]
  split_ifs with h
  · rw [h.1]
    exact slotStep_of_balance _ _ hact
  · exact slotStep_refl _

theorem storeStep_subBalance (s : Store) (i : Nat) (d : Double)
    (hact : (s.acct i).active = true) : StoreStep s (s.subBalance i d) := by
  refine ⟨account_count_subBalance _ _ _, fun j => ?_⟩
  rw [acct_subBalance]
  split_ifs with h
  · rw [h.1]
    exact slotStep_of_balance _ _ hact
  · exact slotStep_refl _

theorem storeStep_zeroBalance (s : Store) (i : Nat) (hact : (s.acct i).active = true) :
    StoreStep s (s.zeroBalance i) := by
  refine ⟨account_count_zeroBalance _ _, fun j => ?_⟩
  rw [acct_zeroBalance]
  split_ifs with h
  · rw [h.1]
    exact slotStep_of_balance _ _ hact
  · exact slotStep_refl _

theorem storeStep_deactivate (s : Store) (i : Nat) : StoreStep s (s.deactivate i) := by
  refine ⟨account_count_deactivate _ _, fun j => ?_⟩
  rw [acct_deactivate]
  split_ifs with h
  · rw [h.1]
    refine ⟨rfl, rfl, rfl, rfl, ?_⟩
    intro hin
    cases ha : s.acct i with
    | mk id name username password balance active =>
      rw [ha] at hin
      simp only at hin
      simp [hin]
  · exact slotStep_refl _

theorem active_addBalance (s : Store) (i j : Nat) (d : Double) :
    ((s.addBalance i d).acct j).active = (s.acct j).active := by
  rw [acct_addBalance]; split_ifs <;> rfl

theorem active_subBalance (s : Store) (i j : Nat) (d : Double) :
    ((s.subBalance i d).acct j).active = (s.acct j).active := by
  rw [acct_subBalance]; split_ifs <;> rfl

theorem active_zeroBalance (s : Store) (i j : Nat) :
    ((s.zeroBalance i).acct j).active = (s.acct j).active := by
  rw [acct_zeroBalance]; split_ifs <;> rfl

/-- A returning `deposit_money` on an active account makes a `StoreStep` and
keeps every `active` flag. -/
theorem deposit_money_storeStep (s : Store) (idx : Nat) (amts : List (Option Double))
    (s1 : Store) (out : List Msg) (h : deposit_money s idx amts = some (s1, out))
    (hact : (s.acct idx).active = true) :
    StoreStep s s1 ∧ ∀ j, (s1.acct j).active = (s.acct j).active := by
  rcases deposit_money_effect s idx amts s1 out h with ⟨a, ha, rfl⟩
  exact ⟨storeStep_addBalance s idx a hact, fun j => active_addBalance s idx j a⟩

/-- A returning `withdraw_money` on an active account makes a `StoreStep` and
keeps every `active` flag. -/
theorem withdraw_money_storeStep (s : Store) (idx : Nat) (amts : List (Option Double))
    (s1 : Store) (out : List Msg) (h : withdraw_money s idx amts = some (s1, out))
    (hact : (s.acct idx).active = true) :
    StoreStep s s1 ∧ ∀ j, (s1.acct j).active = (s.acct j).active := by
  rcases withdraw_money_effect s idx amts s1 out h with ⟨a, _, _, rfl⟩
  exact ⟨storeStep_subBalance s idx a hact, fun j => active_subBalance s idx j a⟩

/-- The function `transfer_money` called on an active account makes a
`StoreStep` and keeps every `active` flag. -/
theorem transfer_money_storeStep (s : Store) (from_idx : Nat) (opt : Option Int)
    (target_user : Option String) (target_id : Option Int) (amt : Option Double)
    (hact : (s.acct from_idx).active = true) :
    StoreStep s (transfer_money s from_idx opt target_user target_id amt).1 ∧
    ∀ j, ((transfer_money s from_idx opt target_user target_id amt).1.acct j).active
      = (s.acct j).active := by
  rcases transfer_money_cases s from_idx opt target_user target_id amt with
    ⟨h1, _⟩ | ⟨o, t, a, _, _, hne, _, htact, _, _, _, heq⟩
  · rw [h1]; exact ⟨storeStep_refl s, fun _ => rfl⟩
  · rw [heq]
    constructor
    · refine storeStep_trans (storeStep_subBalance s from_idx a hact)
        (storeStep_addBalance _ t a ?_)
      rw [active_subBalance]; exact htact
    · intro j
      show (((s.subBalance from_idx a).addBalance t a).acct j).active = _
      rw [active_addBalance, active_subBalance]

/-- What the resolution block of `delete_account` leaves when it does not
return early, on an active account: a `StoreStep`, the same `active` flags, and
no positive balance in the slot. -/
theorem delete_resolve_storeStep (s : Store) (idx : Nat) (opt : Option Int)
    (target_user : Option String) (m : Store) (out : List Msg)
    (h : delete_account.resolve s idx opt target_user = .ok (m, out))
    (hact : (s.acct idx).active = true) :
    StoreStep s m ∧ (∀ j, (m.acct j).active = (s.acct j).active) ∧
      ¬ 0 < (m.acct idx).balance := by
  have hidx : idx < s.account_count := lt_account_count_of_active s idx hact
  unfold delete_account.resolve at h
  split_ifs at h with hb
  · cases opt with
    | none => simp at h
    | some o =>
      simp only at h
      split_ifs at h with h1 h2
      · have hm : m = s.zeroBalance idx := by
          have := Except.ok.inj h
          exact (congrArg Prod.fst this).symm
        subst hm
        refine ⟨storeStep_zeroBalance s idx hact, active_zeroBalance s idx, ?_⟩
        rw [acct_zeroBalance_eq _ _ hidx]
        exact double_lt_irrefl 0
      · cases target_user with
        | none => simp at h
        | some u =>
          simp only at h
          split_ifs at h with h3 h4
          rcases find_loop_range (fun a => a.active && a.username == u) s.accounts with
            hneg | ⟨t, _, ht⟩
          · exact absurd hneg h3
          · have ht' : find_by_username s u = (t : Int) := ht
            have hfound := find_by_username_found s u t ht'
            rw [ht'] at h
            simp only [Int.toNat_ofNat] at h
            have hm : m = (s.addBalance t (s.acct idx).balance).zeroBalance idx := by
              have := Except.ok.inj h
              exact (congrArg Prod.fst this).symm
            subst hm
            refine ⟨storeStep_trans (storeStep_addBalance s t _ hfound.2.1)
              (storeStep_zeroBalance _ idx ?_), ?_, ?_⟩
            · rw [active_addBalance]; exact hact
            · intro j; rw [active_zeroBalance, active_addBalance]
            · rw [acct_zeroBalance_eq _ _ (by rw [account_count_addBalance]; exact hidx)]
              exact double_lt_irrefl 0
  · have hm : m = s := by
      have := Except.ok.inj h
      exact (congrArg Prod.fst this).symm
    subst hm
    exact ⟨storeStep_refl _, fun _ => rfl, hb⟩

/-- The function `delete_account` makes a `StoreStep`. -/
theorem delete_account_storeStep (s : Store) (idx : Nat) (opt : Option Int)
    (target_user : Option String) (ch : Option Char) :
    StoreStep s (delete_account s idx opt target_user ch).1 := by
  by_cases hact : (s.acct idx).active = false
  · simp only [delete_account, hact, if_true]
    exact storeStep_refl s
  · have hact1 : (s.acct idx).active = true := by simpa using hact
    cases hr : delete_account.resolve s idx opt target_user with
    | error e =>
      simp only [delete_account, hact, if_false, hr]
      exact storeStep_refl s
    | ok p =>
      obtain ⟨m, out⟩ := p
      have hres := delete_resolve_storeStep s idx opt target_user m out hr hact1
      by_cases hch : ch = some 'y' ∨ ch = some 'Y'
      · simp only [delete_account, hact, if_false, hr, hch, if_true]
        exact storeStep_trans hres.1 (storeStep_deactivate m idx)
      · simp only [delete_account, hact, if_false, hr, hch]
        exact hres.1

/-! ## Creation and login -/

theorem nth_append_lt (l : List Account) (a : Account) (i : Nat) (h : i < l.length) :
    nth (l ++ [a]) i = nth l i := by
  induction l generalizing i with
  | nil => simp at h
  | cons b l ih =>
    cases i with
    | zero => rfl
    | succ i => exact ih i (by simpa using h)

theorem nth_append_length (l : List Account) (a : Account) :
    nth (l ++ [a]) l.length = a := by
  induction l with
  | nil => rfl
  | cons b l ih => exact ih

/-- The username loop of `create_account` only lets through a username that no
active account has. -/
theorem read_username_free (s : Store) (users : List (Option String)) (u : String)
    (out : List Msg) (h : create_account.read_username s users = some (u, out)) :
    find_by_username s u = -1 := by
  induction users generalizing out with
  | nil => simp [create_account.read_username] at h
  | cons x rest ih =>
    cases x with
    | none => exact ih out h
    | some v =>
      by_cases hv : find_by_username s v ≠ -1
      · simp only [create_account.read_username] at h
        rw [if_pos hv] at h
        simp only [said, Option.map_eq_some'] at h
        rcases h with ⟨⟨u2, out2⟩, h2, h3⟩
        have : u2 = u := by simpa using congrArg Prod.fst h3
        exact ih out2 (this ▸ h2)
      · simp only [create_account.read_username] at h
        rw [if_neg hv] at h
        simp only [Option.some.injEq, Prod.mk.injEq] at h
        rw [← h.1]
        exact not_not.mp hv

/-- The initial-deposit loop of `create_account` only lets through an amount
that is not negative. -/
theorem read_init_nonneg (inits : List (Option Double)) (init : Double) (out : List Msg)
    (h : create_account.read_init inits = some (init, out)) : ¬ init < 0 := by
  induction inits generalizing out with
  | nil => simp [create_account.read_init] at h
  | cons x rest ih =>
    cases x with
    | none =>
      simp only [create_account.read_init, said, Option.map_eq_some'] at h
      rcases h with ⟨⟨i2, out2⟩, h2, h3⟩
      have : i2 = init := by simpa using congrArg Prod.fst h3
      exact ih out2 (this ▸ h2)
    | some v =>
      by_cases hv : v < 0
      · simp only [create_account.read_init, hv, if_true, said, Option.map_eq_some'] at h
        rcases h with ⟨⟨i2, out2⟩, h2, h3⟩
        have : i2 = init := by simpa using congrArg Prod.fst h3
        exact ih out2 (this ▸ h2)
      · simp only [create_account.read_init, hv, if_false, Option.some.injEq,
          Prod.mk.injEq] at h
        rw [← h.1]
        exact hv

/-- What a returning `create_account` has done: nothing when the array is full,
and otherwise it has appended one active account with the next id, the name and
password typed, a username no active account had, and a balance that is not
negative. -/
theorem create_account_effect (s : Store) (name : String) (users : List (Option String))
    (password : String) (inits : List (Option Double)) (s1 : Store) (out : List Msg)
    (h : create_account s name users password inits = some (s1, out)) :
    (MAX_ACCOUNTS ≤ s.account_count ∧ s1 = s ∧ out = [Msg.maxAccountsReached]) ∨
    (s.account_count < MAX_ACCOUNTS ∧ ∃ (u : String) (init : Double),
      s1 = ⟨s.accounts ++ [⟨(s.account_count : Int) + 1, name, u, password, init, true⟩]⟩ ∧
      find_by_username s u = -1 ∧ ¬ init < 0) := by
  unfold create_account at h
  split_ifs at h with hfull
  · left
    simp only [Option.some.injEq, Prod.mk.injEq] at h
    exact ⟨hfull, h.1.symm, h.2.symm⟩
  · right
    refine ⟨not_le.mp hfull, ?_⟩
    cases hu : create_account.read_username s users with
    | none => simp [hu] at h
    | some p =>
      obtain ⟨u, out1⟩ := p
      cases hi : create_account.read_init inits with
      | none => simp [hu, hi] at h
      | some q =>
        obtain ⟨init, out2⟩ := q
        simp only [hu, hi, Option.some.injEq, Prod.mk.injEq] at h
        exact ⟨u, init, h.1.symm, read_username_free s users u out1 hu,
          read_init_nonneg inits init out2 hi⟩

/-- What `login` returns: -1, or the index of an active account with the
username and the password typed. -/
theorem login_result (s : Store) (uname pass : Option String) :
    (login s uname pass).1 = -1 ∨
    ∃ (i : Nat) (u p : String), uname = some u ∧ pass = some p ∧
      login s uname pass = ((i : Int), [Msg.welcome]) ∧
      find_by_username s u = (i : Int) ∧ i < s.account_count ∧
      (s.acct i).active = true ∧ (s.acct i).username = u ∧ (s.acct i).password = p := by
  cases uname with
  | none => left; rfl
  | some u =>
    cases pass with
    | none => left; rfl
    | some p =>
      rcases find_loop_range (fun a => a.active && a.username == u) s.accounts with
        hneg | ⟨i, _, hi⟩
      · left
        have hf : find_by_username s u = -1 := hneg
        simp [login, hf]
      · have hf : find_by_username s u = (i : Int) := hi
        have hfound := find_by_username_found s u i hf
        by_cases hp : (s.acct i).password = p
        · right
          refine ⟨i, u, p, rfl, rfl, ?_, hf, hfound.1, hfound.2.1, hfound.2.2, hp⟩
          have hne : ¬ ((i : Int) = -1) := by omega
          simp [login, hf, hne, hp]
        · left
          have hne : ¬ ((i : Int) = -1) := by omega
          simp [login, hf, hne, hp]

/-! ## The invariant of the runs -/

/-- After a `StoreStep` a slot that is active was active before. -/
theorem slotStep_active_of_active {a b : Account} (h : SlotStep a b)
    (hb : b.active = true) : a.active = true := by
  cases ha : a.active
  · have := h.2.2.2.2 ha
    rw [this, ha] at hb
    cases hb
  · rfl

theorem inv_init : Inv Sys.init := by
  have hacct : ∀ i, Sys.init.store.acct i = default := fun _ => rfl
  refine ⟨fun i hi => ?_, fun i j hi _ _ => ?_, fun idx h => ?_, Nat.zero_le _⟩
  · exact absurd hi (Nat.not_lt_zero i)
  · rw [hacct] at hi; cases hi
  · cases h

/-- The invariant survives a `StoreStep` after which the session, if any,
belongs to an active account. -/
theorem inv_of_storeStep (st : Sys) (s1 : Store) (sess : Option Nat) (hinv : Inv st)
    (hstep : StoreStep st.store s1)
    (hsess : ∀ idx, sess = some idx → (s1.acct idx).active = true) :
    Inv ⟨s1, sess⟩ := by
  obtain ⟨h1, h3, _, h6⟩ := hinv
  obtain ⟨hc, hs⟩ := hstep
  refine ⟨fun i hi => ?_, fun i j hi hj hu => ?_, hsess, ?_⟩
  · have := (hs i).1
    simp only at hi ⊢
    rw [this]
    exact h1 i (by rw [← hc]; exact hi)
  · simp only at hi hj hu
    refine h3 i j (slotStep_active_of_active (hs i) hi) (slotStep_active_of_active (hs j) hj) ?_
    rw [← (hs i).2.2.1, ← (hs j).2.2.1]
    exact hu
  · show s1.account_count ≤ MAX_ACCOUNTS
    rw [hc]; exact h6

/-- The slots of a store with one account appended. -/
theorem acct_append (s : Store) (a : Account) (i : Nat) :
    (Store.mk (s.accounts ++ [a])).acct i
      = if i < s.account_count then s.acct i
        else if i = s.account_count then a else default := by
  split_ifs with h1 h2
  · exact nth_append_lt _ _ _ h1
  · rw [h2]; exact nth_append_length _ _
  · refine nth_of_length_le _ _ ?_
    simp only [List.length_append, List.length_singleton]
    simp only [Store.account_count] at h1 h2
    omega

/-- The invariant survives a returning `create_account`. -/
theorem inv_create (st : Sys) (name : String) (users : List (Option String))
    (password : String) (inits : List (Option Double)) (s1 : Store) (out : List Msg)
    (hinv : Inv st) (hsess : st.session = none)
    (h : create_account st.store name users password inits = some (s1, out)) :
    Inv ⟨s1, none⟩ := by
  rcases create_account_effect _ _ _ _ _ _ _ h with ⟨_, rfl, _⟩ | ⟨hlt, u, init, rfl, hfree, _⟩
  · cases st with
    | mk store session =>
      simp only at hsess
      rw [hsess] at hinv
      exact hinv
  · obtain ⟨h1, h3, _, _⟩ := hinv
    have hnone := (find_by_username_eq_neg_one _ _).mp hfree
    have key : ∀ i, ((Store.mk (st.store.accounts ++
        [⟨(st.store.account_count : Int) + 1, name, u, password, init, true⟩])).acct i).active
          = true →
        (i < st.store.account_count ∧
          (Store.mk (st.store.accounts ++
            [⟨(st.store.account_count : Int) + 1, name, u, password, init, true⟩])).acct i
            = st.store.acct i) ∨
        (i = st.store.account_count ∧
          (Store.mk (st.store.accounts ++
            [⟨(st.store.account_count : Int) + 1, name, u, password, init, true⟩])).acct i
            = ⟨(st.store.account_count : Int) + 1, name, u, password, init, true⟩) := by
      intro i hi
      rw [acct_append] at hi ⊢
      by_cases a1 : i < st.store.account_count
      · left; rw [if_pos a1]; exact ⟨a1, rfl⟩
      · by_cases a2 : i = st.store.account_count
        · right; rw [if_neg a1, if_pos a2]; exact ⟨a2, rfl⟩
        · rw [if_neg a1, if_neg a2] at hi; cases hi
    refine ⟨fun i hi => ?_, fun i j hi hj hu => ?_, fun idx hidx => (by cases hidx), ?_⟩
    · simp only [Store.account_count, List.length_append, List.length_singleton] at hi
      simp only [acct_append]
      by_cases a1 : i < st.store.account_count
      · rw [if_pos a1]; exact h1 i a1
      · have a2 : i = st.store.account_count := by
          simp only [Store.account_count] at a1 ⊢; omega
        rw [if_neg a1, if_pos a2, a2]
    · simp only at hi hj hu
      rcases key i hi with ⟨a1, e1⟩ | ⟨a1, e1⟩ <;> rcases key j hj with ⟨a2, e2⟩ | ⟨a2, e2⟩
      · rw [e1] at hi hu; rw [e2] at hj hu
        exact h3 i j hi hj hu
      · rw [e1] at hi hu; rw [e2] at hu
        exact absurd ⟨hi, hu⟩ (hnone i a1)
      · rw [e1] at hu; rw [e2] at hj hu
        exact absurd ⟨hj, hu.symm⟩ (hnone j a2)
      · rw [a1, a2]
    · show (Store.mk _).account_count ≤ MAX_ACCOUNTS
      simp only [Store.account_count, List.length_append, List.length_singleton]
      simp only [Store.account_count] at hlt
      omega

/-- The invariant survives every menu round. -/
theorem inv_step (st st1 : Sys) (c : Cmd) (hinv : Inv st) (h : step st c = some st1) :
    Inv st1 := by
  obtain ⟨store, session⟩ := st
  cases session with
  | none =>
    cases c with
    | create name users password inits =>
      simp only [step, Option.map_eq_some'] at h
      rcases h with ⟨⟨s1, out⟩, h1, rfl⟩
      exact inv_create _ _ _ _ _ _ _ hinv rfl h1
    | login uname pass =>
      simp only [step] at h
      split_ifs at h with hne
      · rcases login_result store uname pass with hneg | ⟨i, u, p, _, _, hl, _, _, hact, _, _⟩
        · exact absurd hneg hne
        · have hst : st1 = ⟨store, some i⟩ := by
            rw [hl] at h
            simpa using h.symm
          rw [hst]
          refine inv_of_storeStep _ _ _ hinv (storeStep_refl _) ?_
          intro idx hidx
          have : idx = i := by simpa using hidx.symm
          rw [this]; exact hact
      · have hst : st1 = ⟨store, none⟩ := by simpa using h.symm
        rw [hst]; exact hinv
    | view => simp [step] at h
    | deposit amts => simp [step] at h
    | withdraw amts => simp [step] at h
    | transfer opt tu tid amt => simp [step] at h
    | delete opt tu ch => simp [step] at h
    | logout => simp [step] at h
  | some idx =>
    have hact : (store.acct idx).active = true := hinv.2.2.1 idx rfl
    cases c with
    | create name users password inits => simp [step] at h
    | login uname pass => simp [step] at h
    | view =>
      have hst : st1 = ⟨store, some idx⟩ := by simpa [step] using h.symm
      rw [hst]; exact hinv
    | deposit amts =>
      simp only [step, Option.map_eq_some'] at h
      rcases h with ⟨⟨s1, out⟩, h1, rfl⟩
      have hs := deposit_money_storeStep store idx amts s1 out h1 hact
      refine inv_of_storeStep _ _ _ hinv hs.1 ?_
      intro i hi
      have : i = idx := by simpa using hi.symm
      rw [this, hs.2]; exact hact
    | withdraw amts =>
      simp only [step, Option.map_eq_some'] at h
      rcases h with ⟨⟨s1, out⟩, h1, rfl⟩
      have hs := withdraw_money_storeStep store idx amts s1 out h1 hact
      refine inv_of_storeStep _ _ _ hinv hs.1 ?_
      intro i hi
      have : i = idx := by simpa using hi.symm
      rw [this, hs.2]; exact hact
    | transfer opt tu tid amt =>
      have hst : st1 = ⟨(transfer_money store idx opt tu tid amt).1, some idx⟩ := by
        simpa [step] using h.symm
      have hs := transfer_money_storeStep store idx opt tu tid amt hact
      rw [hst]
      refine inv_of_storeStep _ _ _ hinv hs.1 ?_
      intro i hi
      have : i = idx := by simpa using hi.symm
      rw [this, hs.2]; exact hact
    | delete opt tu ch =>
      have hs := delete_account_storeStep store idx opt tu ch
      simp only [step] at h
      split_ifs at h with hd
      · have hst : st1 = ⟨(delete_account store idx opt tu ch).1, none⟩ := by
          simpa using h.symm
        rw [hst]
        exact inv_of_storeStep _ _ _ hinv hs (fun i hi => by cases hi)
      · have hst : st1 = ⟨(delete_account store idx opt tu ch).1, some idx⟩ := by
          simpa using h.symm
        rw [hst]
        refine inv_of_storeStep _ _ _ hinv hs ?_
        intro i hi
        have : i = idx := by simpa using hi.symm
        rw [this]; simpa using hd
    | logout =>
      have hst : st1 = ⟨store, none⟩ := by simpa [step] using h.symm
      rw [hst]
      exact inv_of_storeStep _ _ _ hinv (storeStep_refl _) (fun i hi => by cases hi)

/-- Every reachable state satisfies the invariant. -/
theorem inv_of_reachable (st : Sys) (h : Reachable st) : Inv st := by
  induction h with
  | init => exact inv_init
  | step st st1 c _ hs ih => exact inv_step st st1 c ih hs

/-- The states of a run from a reachable state are reachable. -/
theorem reachable_of_run (st : Sys) (cs : List Cmd) (st1 : Sys) (h : Reachable st)
    (hrun : run st cs = some st1) : Reachable st1 := by
  induction cs generalizing st with
  | nil =>
    simp only [run, Option.some.injEq] at hrun
    rw [← hrun]; exact h
  | cons c cs ih =>
    simp only [run] at hrun
    cases hs : step st c with
    | none => rw [hs] at hrun; cases hrun
    | some st2 =>
      rw [hs] at hrun
      exact ih st2 (Reachable.step st st2 c h hs) hrun

/-- What a menu round does to the store: a `StoreStep`, or, for option 1 of the
main menu only, one account appended with the next id and a username no
active account has. -/
theorem step_effect (st st1 : Sys) (c : Cmd) (hinv : Inv st) (h : step st c = some st1) :
    StoreStep st.store st1.store ∨
    (st.store.account_count < MAX_ACCOUNTS ∧
      ∃ (name : String) (users : List (Option String)) (password : String)
        (inits : List (Option Double)) (u : String) (init : Double),
        c = Cmd.create name users password inits ∧
        st1.store = ⟨st.store.accounts ++
          [⟨(st.store.account_count : Int) + 1, name, u, password, init, true⟩]⟩ ∧
        find_by_username st.store u = -1 ∧ ¬ init < 0) := by
  obtain ⟨store, session⟩ := st
  cases session with
  | none =>
    cases c with
    | create name users password inits =>
      simp only [step, Option.map_eq_some'] at h
      rcases h with ⟨⟨s1, out⟩, h1, rfl⟩
      rcases create_account_effect _ _ _ _ _ _ _ h1 with
        ⟨_, hs, _⟩ | ⟨hlt, u, init, hs, hfree, hinit⟩
      · left; simp only; rw [hs]; exact storeStep_refl _
      · right
        exact ⟨hlt, name, users, password, inits, u, init, rfl, hs, hfree, hinit⟩
    | login uname pass =>
      left
      simp only [step] at h
      split_ifs at h
      · have hst : st1 = ⟨store, some (login store uname pass).1.toNat⟩ := by
          simpa using h.symm
        rw [hst]; exact storeStep_refl _
      · have hst : st1 = ⟨store, none⟩ := by simpa using h.symm
        rw [hst]; exact storeStep_refl _
    | view => simp [step] at h
    | deposit amts => simp [step] at h
    | withdraw amts => simp [step] at h
    | transfer opt tu tid amt => simp [step] at h
    | delete opt tu ch => simp [step] at h
    | logout => simp [step] at h
  | some idx =>
    left
    have hact : (store.acct idx).active = true := hinv.2.2.1 idx rfl
    cases c with
    | create name users password inits => simp [step] at h
    | login uname pass => simp [step] at h
    | view =>
      have hst : st1 = ⟨store, some idx⟩ := by simpa [step] using h.symm
      rw [hst]; exact storeStep_refl _
    | deposit amts =>
      simp only [step, Option.map_eq_some'] at h
      rcases h with ⟨⟨s1, out⟩, h1, rfl⟩
      exact (deposit_money_storeStep store idx amts s1 out h1 hact).1
    | withdraw amts =>
      simp only [step, Option.map_eq_some'] at h
      rcases h with ⟨⟨s1, out⟩, h1, rfl⟩
      exact (withdraw_money_storeStep store idx amts s1 out h1 hact).1
    | transfer opt tu tid amt =>
      have hst : st1 = ⟨(transfer_money store idx opt tu tid amt).1, some idx⟩ := by
        simpa [step] using h.symm
      rw [hst]
      exact (transfer_money_storeStep store idx opt tu tid amt hact).1
    | delete opt tu ch =>
      have hs := delete_account_storeStep store idx opt tu ch
      simp only [step] at h
      split_ifs at h
      · have hst : st1 = ⟨(delete_account store idx opt tu ch).1, none⟩ := by
          simpa using h.symm
        rw [hst]; exact hs
      · have hst : st1 = ⟨(delete_account store idx opt tu ch).1, some idx⟩ := by
          simpa using h.symm
        rw [hst]; exact hs
    | logout =>
      have hst : st1 = ⟨store, none⟩ := by simpa [step] using h.symm
      rw [hst]; exact storeStep_refl _

/-- A menu round never lowers `account_count`, raises it by at most one, and
keeps the id, name, username and password of every account there is. -/
theorem step_keeps_identity (st st1 : Sys) (c : Cmd) (hinv : Inv st)
    (h : step st c = some st1) :
    st.store.account_count ≤ st1.store.account_count ∧
    st1.store.account_count ≤ st.store.account_count + 1 ∧
    ∀ i, i < st.store.account_count →
      (st1.store.acct i).id = (st.store.acct i).id ∧
      (st1.store.acct i).name = (st.store.acct i).name ∧
      (st1.store.acct i).username = (st.store.acct i).username ∧
      (st1.store.acct i).password = (st.store.acct i).password := by
  rcases step_effect st st1 c hinv h with ⟨hc, hs⟩ | ⟨_, name, users, pw, inits, u, init, _, hst, _, _⟩
  · refine ⟨by rw [hc], by rw [hc]; exact Nat.le_succ _, fun i _ => ?_⟩
    exact ⟨(hs i).1, (hs i).2.1, (hs i).2.2.1, (hs i).2.2.2.1⟩
  · rw [hst]
    refine ⟨?_, ?_, fun i hi => ?_⟩
    · simp [Store.account_count]
    · simp [Store.account_count]
    · rw [acct_append, if_pos hi]
      exact ⟨rfl, rfl, rfl, rfl⟩

/-- A menu round leaves a closed account as it is. -/
theorem step_keeps_closed (st st1 : Sys) (c : Cmd) (hinv : Inv st)
    (h : step st c = some st1) (i : Nat) (hi : i < st.store.account_count)
    (hclosed : (st.store.acct i).active = false) :
    st1.store.acct i = st.store.acct i := by
  rcases step_effect st st1 c hinv h with ⟨_, hs⟩ | ⟨_, name, users, pw, inits, u, init, _, hst, _, _⟩
  · exact (hs i).2.2.2.2 hclosed
  · rw [hst, acct_append, if_pos hi]

/-- A run leaves a closed account as it is. -/
theorem run_keeps_closed (st : Sys) (cs : List Cmd) (st1 : Sys) (hinv : Inv st)
    (hrun : run st cs = some st1) (i : Nat) (hi : i < st.store.account_count)
    (hclosed : (st.store.acct i).active = false) :
    st1.store.acct i = st.store.acct i ∧ i < st1.store.account_count := by
  induction cs generalizing st with
  | nil =>
    simp only [run, Option.some.injEq] at hrun
    rw [← hrun]; exact ⟨rfl, hi⟩
  | cons c cs ih =>
    simp only [run] at hrun
    cases hs : step st c with
    | none => rw [hs] at hrun; cases hrun
    | some st2 =>
      rw [hs] at hrun
      have hk := step_keeps_closed st st2 c hinv hs i hi hclosed
      have hc := (step_keeps_identity st st2 c hinv hs).1
      have := ih st2 (inv_step st st2 c hinv hs) hrun (lt_of_lt_of_le hi hc)
        (by rw [hk]; exact hclosed)
      exact ⟨this.1.trans hk, this.2⟩

/-! ## Lookups in a store with the invariant -/

/-- In a store where active usernames are pairwise different the lookup by
username of an active account finds that account. -/
theorem find_by_username_own (s : Store) (i : Nat)
    (hact : (s.acct i).active = true)
    (huniq : ∀ j, (s.acct j).active = true →
      (s.acct j).username = (s.acct i).username → j = i) :
    find_by_username s (s.acct i).username = (i : Int) := by
  rcases find_loop_range (fun a => a.active && a.username == (s.acct i).username)
      s.accounts with hneg | ⟨k, _, hk⟩
  · have hf : find_by_username s (s.acct i).username = -1 := hneg
    have := (find_by_username_eq_neg_one s _).mp hf i
      (lt_account_count_of_active s i hact)
    exact absurd ⟨hact, rfl⟩ this
  · have hf : find_by_username s (s.acct i).username = (k : Int) := hk
    have hfound := find_by_username_found s _ k hf
    rw [hf, huniq k hfound.2.1 hfound.2.2]

/-- In a store where the ids are the positions plus one the lookup by id of an
active account finds that account. -/
theorem find_by_id_own (s : Store) (i : Nat)
    (hact : (s.acct i).active = true)
    (hids : ∀ j, j < s.account_count → (s.acct j).id = (j : Int) + 1) :
    find_by_id s (s.acct i).id = (i : Int) := by
  have hi := lt_account_count_of_active s i hact
  rcases find_loop_range (fun a => a.active && a.id == (s.acct i).id)
      s.accounts with hneg | ⟨k, _, hk⟩
  · have hf : find_by_id s (s.acct i).id = -1 := hneg
    have := (find_by_id_eq_neg_one s _).mp hf i hi
    exact absurd ⟨hact, rfl⟩ this
  · have hf : find_by_id s (s.acct i).id = (k : Int) := hk
    have hfound := find_by_id_found s _ k hf
    have hid := hfound.2.2
    rw [hids k hfound.1, hids i hi] at hid
    rw [hf]
    omega

set_option maxRecDepth 100000 in
/-- The run `full_cmds` ends in `full_sys`. -/
theorem run_full_cmds : run Sys.init full_cmds = some full_sys := rfl

/-- The state `full_sys` is reachable. -/
theorem reachable_full_sys : Reachable full_sys :=
  reachable_of_run Sys.init full_cmds full_sys Reachable.init run_full_cmds

/-- A username held by an active account is refused by the username loop of
`create_account`, which then goes on with the next one typed. -/
theorem read_username_taken (s : Store) (u : String) (users : List (Option String))
    (h : ∃ i, i < s.account_count ∧ (s.acct i).active = true ∧ (s.acct i).username = u) :
    create_account.read_username s (some u :: users)
      = said Msg.usernameTaken (create_account.read_username s users) := by
  have hne : find_by_username s u ≠ -1 := by
    intro hf
    rcases h with ⟨i, hi, hact, hu⟩
    exact (find_by_username_eq_neg_one s u).mp hf i hi ⟨hact, hu⟩
  simp only [create_account.read_username]
  rw [if_pos hne]

/-! ## The sum of the active balances -/

/-- Rewriting slot `i` changes the sum of the active balances by what the slot
contributes after minus what it contributed before. -/
theorem active_total_modify (f : Account → Account) (l : List Account) (i : Nat)
    (h : i < l.length) :
    active_total (modify f l i)
      = active_total l
        - (if (nth l i).active = true then (nth l i).balance.units else 0)
        + (if (f (nth l i)).active = true then (f (nth l i)).balance.units else 0) := by
  induction l generalizing i with
  | nil => simp at h
  | cons a l ih =>
    cases i with
    | zero =>
      simp only [modify, active_total, nth]
      ring
    | succ i =>
      simp only [modify, active_total, nth]
      rw [ih i (by simpa using h)]
      ring

theorem active_total_append (l : List Account) (a : Account) :
    active_total (l ++ [a])
      = active_total l + (if a.active = true then a.balance.units else 0) := by
  induction l with
  | nil => simp [active_total]
  | cons b l ih =>
    show (if b.active = true then b.balance.units else 0) + active_total (l ++ [a]) = _
    rw [ih]
    simp only [active_total]
    ring

theorem active_total_addBalance (s : Store) (i : Nat) (d : Double)
    (hact : (s.acct i).active = true) :
    (s.addBalance i d).active_total
      = s.active_total - (s.acct i).balance.units + ((s.acct i).balance + d).units := by
  have hi := lt_account_count_of_active s i hact
  have hact1 : (nth s.accounts i).active = true := hact
  simp only [Store.active_total, Store.addBalance, Store.acct]
  rw [active_total_modify _ _ _ hi]
  simp only [hact1, if_true]

theorem active_total_subBalance (s : Store) (i : Nat) (d : Double)
    (hact : (s.acct i).active = true) :
    (s.subBalance i d).active_total
      = s.active_total - (s.acct i).balance.units + ((s.acct i).balance - d).units := by
  have hi := lt_account_count_of_active s i hact
  have hact1 : (nth s.accounts i).active = true := hact
  simp only [Store.active_total, Store.subBalance, Store.acct]
  rw [active_total_modify _ _ _ hi]
  simp only [hact1, if_true]

/-- An exact `balance += d` on an active account raises the sum of the active
balances by `d`. -/
theorem active_total_addBalance_exact (s : Store) (i : Nat) (d : Double)
    (hact : (s.acct i).active = true) (hex : Double.exact_add (s.acct i).balance d) :
    (s.addBalance i d).active_total = s.active_total + d.units := by
  rw [active_total_addBalance s i d hact, double_add_of_exact _ _ hex]
  simp only [Double.units]
  ring

/-- An exact `balance -= d` on an active account lowers the sum of the active
balances by `d`. -/
theorem active_total_subBalance_exact (s : Store) (i : Nat) (d : Double)
    (hact : (s.acct i).active = true) (hex : Double.exact_sub (s.acct i).balance d) :
    (s.subBalance i d).active_total = s.active_total - d.units := by
  rw [active_total_subBalance s i d hact, double_sub_of_exact _ _ hex]
  simp only [Double.units]
  ring

theorem active_total_zeroBalance (s : Store) (i : Nat)
    (hact : (s.acct i).active = true) :
    (s.zeroBalance i).active_total = s.active_total - (s.acct i).balance.units := by
  have hi := lt_account_count_of_active s i hact
  have hact1 : (nth s.accounts i).active = true := hact
  simp only [Store.active_total, Store.zeroBalance, Store.acct]
  rw [active_total_modify _ _ _ hi]
  simp only [hact1, if_true]
  show _ - _ + (0 : Int) = _
  ring

theorem active_total_deactivate (s : Store) (i : Nat)
    (hact : (s.acct i).active = true) :
    (s.deactivate i).active_total = s.active_total - (s.acct i).balance.units := by
  have hi := lt_account_count_of_active s i hact
  have hact1 : (nth s.accounts i).active = true := hact
  simp only [Store.active_total, Store.deactivate, Store.acct]
  rw [active_total_modify _ _ _ hi]
  simp only [hact1, if_true]
  simp

/-! ## The paths through `delete_account` -/

/-- The four ways through the resolution block of `delete_account`: an early
`return`, no positive balance and nothing to do, option 1, and option 2 with a
recipient that is another active account. -/
theorem delete_resolve_cases (s : Store) (idx : Nat) (opt : Option Int)
    (target_user : Option String) :
    (∃ m, delete_account.resolve s idx opt target_user = .error m) ∨
    (¬ 0 < (s.acct idx).balance ∧
      delete_account.resolve s idx opt target_user = .ok (s, [])) ∨
    (0 < (s.acct idx).balance ∧ opt = some 1 ∧
      delete_account.resolve s idx opt target_user
        = .ok (s.zeroBalance idx, [Msg.allMoneyWithdrawn])) ∨
    (0 < (s.acct idx).balance ∧ opt = some 2 ∧
      ∃ (u : String) (t : Nat), target_user = some u ∧
        find_by_username s u = (t : Int) ∧ t ≠ idx ∧ t < s.account_count ∧
        (s.acct t).active = true ∧
        delete_account.resolve s idx opt target_user
          = .ok ((s.addBalance t (s.acct idx).balance).zeroBalance idx,
              [Msg.transferredAll])) := by
  by_cases hb : 0 < (s.acct idx).balance
  · cases opt with
    | none => left; exact ⟨Msg.invalidInput, by simp [delete_account.resolve, hb]⟩
    | some o =>
      by_cases h1 : o = 1
      · right; right; left
        exact ⟨hb, by rw [h1], by simp [delete_account.resolve, hb, h1]⟩
      · by_cases h2 : o = 2
        · cases target_user with
          | none => left; exact ⟨Msg.invalidInput, by simp [delete_account.resolve, hb, h2]⟩
          | some u =>
            rcases find_loop_range (fun a => a.active && a.username == u) s.accounts with
              hneg | ⟨t, _, ht⟩
            · left
              have hf : find_by_username s u = -1 := hneg
              exact ⟨Msg.noSuchRecipient, by simp [delete_account.resolve, hb, h2, hf]⟩
            · have hf : find_by_username s u = (t : Int) := ht
              have hfound := find_by_username_found s u t hf
              by_cases hsame : t = idx
              · left
                exact ⟨Msg.sameAccount, by simp [delete_account.resolve, hb, h2, hf, hsame]⟩
              · right; right; right
                refine ⟨hb, by rw [h2], u, t, rfl, hf, hsame, hfound.1, hfound.2.1, ?_⟩
                have hne : ¬ ((t : Int) = (idx : Int)) := by omega
                simp [delete_account.resolve, hb, h2, hf, hne]
        · left; exact ⟨Msg.invalidOption, by simp [delete_account.resolve, hb, h1, h2]⟩
  · right; left
    exact ⟨hb, by simp [delete_account.resolve, hb]⟩

/-- The store that `delete_account` returns for an active account, from what
its resolution block delivers. -/
theorem delete_account_of_resolve (s : Store) (idx : Nat) (opt : Option Int)
    (target_user : Option String) (ch : Option Char)
    (hact : (s.acct idx).active = true) :
    (∀ m, delete_account.resolve s idx opt target_user = .error m →
      delete_account s idx opt target_user ch = (s, [m])) ∧
    (∀ s1 out, delete_account.resolve s idx opt target_user = .ok (s1, out) →
      (ch = some 'y' ∨ ch = some 'Y') →
      delete_account s idx opt target_user ch
        = (s1.deactivate idx, out ++ [Msg.accountDeleted])) ∧
    (∀ s1 out, delete_account.resolve s idx opt target_user = .ok (s1, out) →
      ¬ (ch = some 'y' ∨ ch = some 'Y') →
      delete_account s idx opt target_user ch = (s1, out ++ [Msg.deletionCancelled])) := by
  refine ⟨?_, ?_, ?_⟩
  · intro m hr
    simp [delete_account, hact, hr]
  · intro s1 out hr hch
    simp only [delete_account, hact, hr]
    simp [hch]
  · intro s1 out hr hch
    simp only [delete_account, hact, hr]
    simp [hch]

/-! ## The lookups return the first match -/

/-- The scan returns `i` exactly when slot `i` is the first that satisfies the
test. -/
theorem find_loop_eq_iff (p : Account → Bool) (l : List Account) (i : Nat) :
    find_loop p l 0 = (i : Int) ↔
      i < l.length ∧ p (nth l i) = true ∧ ∀ j, j < i → p (nth l j) = false := by
  rcases find_loop_spec p l 0 with ⟨h1, h2⟩ | ⟨k, hk, h1, h2, h3⟩
  · constructor
    · intro h; rw [h1] at h; omega
    · intro ⟨hi, hp, _⟩
      rw [h2 i hi] at hp; cases hp
  · constructor
    · intro h
      rw [h1] at h
      have hik : i = k := by omega
      rw [hik]; exact ⟨hk, h2, h3⟩
    · intro ⟨_, hp, hfirst⟩
      have hik : i = k := by
        rcases Nat.lt_trichotomy i k with hlt | heq | hgt
        · rw [h3 i hlt] at hp; cases hp
        · exact heq
        · rw [hfirst k hgt] at h2; cases h2
      rw [h1, hik]; simp

/-- The lookup by username returns `i` exactly when account `i` is the first
active account with that username. -/
theorem find_by_username_eq_iff (s : Store) (u : String) (i : Nat) :
    find_by_username s u = (i : Int) ↔
      i < s.account_count ∧ (s.acct i).active = true ∧ (s.acct i).username = u ∧
      ∀ j, j < i → ¬ ((s.acct j).active = true ∧ (s.acct j).username = u) := by
  unfold find_by_username
  rw [find_loop_eq_iff]
  simp only [Bool.and_eq_true, beq_iff_eq, Store.account_count, Store.acct]
  constructor
  · intro ⟨h1, h2, h3⟩
    refine ⟨h1, h2.1, h2.2, fun j hj hc => ?_⟩
    have := h3 j hj
    rw [hc.1, hc.2] at this
    simp at this
  · intro ⟨h1, h2, h3, h4⟩
    refine ⟨h1, ⟨h2, h3⟩, fun j hj => ?_⟩
    have := h4 j hj
    cases ha : (nth s.accounts j).active
    · simp
    · simp only [Bool.true_and, beq_eq_false_iff_ne]
      intro hu; exact this ⟨ha, hu⟩

/-- The lookup by id returns `i` exactly when account `i` is the first active
account with that id. -/
theorem find_by_id_eq_iff (s : Store) (n : Int) (i : Nat) :
    find_by_id s n = (i : Int) ↔
      i < s.account_count ∧ (s.acct i).active = true ∧ (s.acct i).id = n ∧
      ∀ j, j < i → ¬ ((s.acct j).active = true ∧ (s.acct j).id = n) := by
  unfold find_by_id
  rw [find_loop_eq_iff]
  simp only [Bool.and_eq_true, beq_iff_eq, Store.account_count, Store.acct]
  constructor
  · intro ⟨h1, h2, h3⟩
    refine ⟨h1, h2.1, h2.2, fun j hj hc => ?_⟩
    have := h3 j hj
    rw [hc.1, hc.2] at this
    simp at this
  · intro ⟨h1, h2, h3, h4⟩
    refine ⟨h1, ⟨h2, h3⟩, fun j hj => ?_⟩
    have := h4 j hj
    cases ha : (nth s.accounts j).active
    · simp
    · simp only [Bool.true_and, beq_eq_false_iff_ne]
      intro hu; exact this ⟨ha, hu⟩

/-- A run never lowers `account_count`. -/
theorem run_account_count_mono (st : Sys) (cs : List Cmd) (st1 : Sys) (hinv : Inv st)
    (hrun : run st cs = some st1) :
    st.store.account_count ≤ st1.store.account_count := by
  induction cs generalizing st with
  | nil =>
    simp only [run, Option.some.injEq] at hrun
    rw [← hrun]
  | cons c cs ih =>
    simp only [run] at hrun
    cases hs : step st c with
    | none => rw [hs] at hrun; cases hrun
    | some st2 =>
      rw [hs] at hrun
      exact le_trans (step_keeps_identity st st2 c hinv hs).1
        (ih st2 (inv_step st st2 c hinv hs) hrun)


/-! ## The amount a retry loop lets through -/

/-- A returning `deposit_money` has refused every amount typed before the one
it added: the amount added is the first typed that is not `≤ 0`. -/
theorem deposit_money_accepts (s : Store) (idx : Nat) (amts : List (Option Double))
    (s1 : Store) (out : List Msg) (h : deposit_money s idx amts = some (s1, out)) :
    ∃ (pre : List (Option Double)) (a : Double) (rest : List (Option Double)),
      amts = pre ++ some a :: rest ∧ (∀ b, some b ∈ pre → b ≤ 0) ∧ ¬ a ≤ 0 ∧
      s1 = s.addBalance idx a := by
  induction amts generalizing out with
  | nil => simp [deposit_money] at h
  | cons x tl ih =>
    cases x with
    | none =>
      simp only [deposit_money, said, Option.map_eq_some'] at h
      rcases h with ⟨⟨s2, out2⟩, h2, h3⟩
      have : s2 = s1 := by simpa using congrArg Prod.fst h3
      rcases ih out2 (this ▸ h2) with ⟨pre, a, rest, hamts, hpre, ha, hs1⟩
      refine ⟨none :: pre, a, rest, by rw [hamts]; rfl, ?_, ha, hs1⟩
      intro b hb
      rcases List.mem_cons.mp hb with hb1 | hb1
      · cases hb1
      · exact hpre b hb1
    | some v =>
      by_cases hv : v ≤ 0
      · simp only [deposit_money, hv, if_true, said, Option.map_eq_some'] at h
        rcases h with ⟨⟨s2, out2⟩, h2, h3⟩
        have : s2 = s1 := by simpa using congrArg Prod.fst h3
        rcases ih out2 (this ▸ h2) with ⟨pre, a, rest, hamts, hpre, ha, hs1⟩
        refine ⟨some v :: pre, a, rest, by rw [hamts]; rfl, ?_, ha, hs1⟩
        intro b hb
        rcases List.mem_cons.mp hb with hb1 | hb1
        · cases hb1; exact hv
        · exact hpre b hb1
      · simp only [deposit_money, hv, if_false, Option.some.injEq, Prod.mk.injEq] at h
        exact ⟨[], v, tl, rfl, fun b hb => absurd hb (List.not_mem_nil _), hv, h.1.symm⟩

/-- A returning `withdraw_money` has refused every amount typed before the one
it took: the amount taken is the first typed that is neither `≤ 0` nor above
the balance. -/
theorem withdraw_money_accepts (s : Store) (idx : Nat) (amts : List (Option Double))
    (s1 : Store) (out : List Msg) (h : withdraw_money s idx amts = some (s1, out)) :
    ∃ (pre : List (Option Double)) (a : Double) (rest : List (Option Double)),
      amts = pre ++ some a :: rest ∧
      (∀ b, some b ∈ pre → b ≤ 0 ∨ b > (s.acct idx).balance) ∧
      ¬ a ≤ 0 ∧ ¬ a > (s.acct idx).balance ∧ s1 = s.subBalance idx a := by
  induction amts generalizing out with
  | nil => simp [withdraw_money] at h
  | cons x tl ih =>
    cases x with
    | none =>
      simp only [withdraw_money, said, Option.map_eq_some'] at h
      rcases h with ⟨⟨s2, out2⟩, h2, h3⟩
      have : s2 = s1 := by simpa using congrArg Prod.fst h3
      rcases ih out2 (this ▸ h2) with ⟨pre, a, rest, hamts, hpre, ha, hab, hs1⟩
      refine ⟨none :: pre, a, rest, by rw [hamts]; rfl, ?_, ha, hab, hs1⟩
      intro b hb
      rcases List.mem_cons.mp hb with hb1 | hb1
      · cases hb1
      · exact hpre b hb1
    | some v =>
      by_cases hv : v ≤ 0
      · simp only [withdraw_money, hv, if_true, said, Option.map_eq_some'] at h
        rcases h with ⟨⟨s2, out2⟩, h2, h3⟩
        have : s2 = s1 := by simpa using congrArg Prod.fst h3
        rcases ih out2 (this ▸ h2) with ⟨pre, a, rest, hamts, hpre, ha, hab, hs1⟩
        refine ⟨some v :: pre, a, rest, by rw [hamts]; rfl, ?_, ha, hab, hs1⟩
        intro b hb
        rcases List.mem_cons.mp hb with hb1 | hb1
        · cases hb1; exact Or.inl hv
        · exact hpre b hb1
      · by_cases hvb : v > (s.acct idx).balance
        · simp only [withdraw_money, hv, if_false, hvb, if_true, said,
            Option.map_eq_some'] at h
          rcases h with ⟨⟨s2, out2⟩, h2, h3⟩
          have : s2 = s1 := by simpa using congrArg Prod.fst h3
          rcases ih out2 (this ▸ h2) with ⟨pre, a, rest, hamts, hpre, ha, hab, hs1⟩
          refine ⟨some v :: pre, a, rest, by rw [hamts]; rfl, ?_, ha, hab, hs1⟩
          intro b hb
          rcases List.mem_cons.mp hb with hb1 | hb1
          · cases hb1; exact Or.inr hvb
          · exact hpre b hb1
        · simp only [withdraw_money, hv, if_false, hvb, Option.some.injEq,
            Prod.mk.injEq] at h
          exact ⟨[], v, tl, rfl, fun b hb => absurd hb (List.not_mem_nil _), hv, hvb, h.1.symm⟩

/-- The initial-deposit loop of `create_account` has refused every amount typed
before the one it returns: that amount is the first typed that is not `< 0`. -/
theorem read_init_accepts (inits : List (Option Double)) (init : Double) (out : List Msg)
    (h : create_account.read_init inits = some (init, out)) :
    ∃ (pre rest : List (Option Double)),
      inits = pre ++ some init :: rest ∧ (∀ b, some b ∈ pre → b < 0) ∧ ¬ init < 0 := by
  induction inits generalizing out with
  | nil => simp [create_account.read_init] at h
  | cons x tl ih =>
    cases x with
    | none =>
      simp only [create_account.read_init, said, Option.map_eq_some'] at h
      rcases h with ⟨⟨i2, out2⟩, h2, h3⟩
      have : i2 = init := by simpa using congrArg Prod.fst h3
      rcases ih out2 (this ▸ h2) with ⟨pre, rest, hin, hpre, hi⟩
      refine ⟨none :: pre, rest, by rw [hin]; rfl, ?_, hi⟩
      intro b hb
      rcases List.mem_cons.mp hb with hb1 | hb1
      · cases hb1
      · exact hpre b hb1
    | some v =>
      by_cases hv : v < 0
      · simp only [create_account.read_init, hv, if_true, said, Option.map_eq_some'] at h
        rcases h with ⟨⟨i2, out2⟩, h2, h3⟩
        have : i2 = init := by simpa using congrArg Prod.fst h3
        rcases ih out2 (this ▸ h2) with ⟨pre, rest, hin, hpre, hi⟩
        refine ⟨some v :: pre, rest, by rw [hin]; rfl, ?_, hi⟩
        intro b hb
        rcases List.mem_cons.mp hb with hb1 | hb1
        · cases hb1; exact hv
        · exact hpre b hb1
      · simp only [create_account.read_init, hv, if_false, Option.some.injEq,
          Prod.mk.injEq] at h
        rw [← h.1]
        exact ⟨[], tl, rfl, fun b hb => absurd hb (List.not_mem_nil _), hv⟩

/-- A `create_account` that appends an account appends it with the first
amount typed that is not `< 0` as its balance. -/
theorem create_account_accepts (s : Store) (name : String) (users : List (Option String))
    (password : String) (inits : List (Option Double)) (s1 : Store) (out : List Msg)
    (h : create_account s name users password inits = some (s1, out))
    (hcount : s1.account_count = s.account_count + 1) :
    ∃ (u : String) (init : Double) (pre rest : List (Option Double)),
      inits = pre ++ some init :: rest ∧ (∀ b, some b ∈ pre → b < 0) ∧ ¬ init < 0 ∧
      s1 = ⟨s.accounts ++
        [⟨(s.account_count : Int) + 1, name, u, password, init, true⟩]⟩ := by
  unfold create_account at h
  split_ifs at h with hfull
  · simp only [Option.some.injEq, Prod.mk.injEq] at h
    rw [← h.1] at hcount
    omega
  · cases hu : create_account.read_username s users with
    | none => simp [hu] at h
    | some p =>
      obtain ⟨u, out1⟩ := p
      cases hi : create_account.read_init inits with
      | none => simp [hu, hi] at h
      | some q =>
        obtain ⟨init, out2⟩ := q
        simp only [hu, hi, Option.some.injEq, Prod.mk.injEq] at h
        rcases read_init_accepts inits init out2 hi with ⟨pre, rest, hin, hpre, hinit⟩
        exact ⟨u, init, pre, rest, hin, hpre, hinit, h.1.symm⟩
/-! ## Transfer -/

/-- The counterexample to C1 as stated: in `rich`, `alice` (active, 1e17) sends
4 to `bob` (active, 5), and `0 < 4 ≤ 1e17`.  The transfer succeeds, `bob` has 9,
but `alice` still has 1e17, the double nearest to 1e17 - 4: her balance is not
the old one minus 4, and the two balances no longer add up to what they did,
whether added exactly or as doubles. -/
theorem transfer_money_rounds_sender :
    (rich.acct 0).active = true ∧ (rich.acct 1).active = true ∧
    find_by_username rich "bob" = 1 ∧
    (0 : Double) < 4 ∧ (4 : Double) ≤ (rich.acct 0).balance ∧
    transfer_money rich 0 (some 1) (some "bob") none (some 4)
      = (⟨[⟨1, "Alice A", "alice", "pw1", 100000000000000000, true⟩,
           ⟨2, "Bob B", "bob", "pw2", 9, true⟩]⟩, [Msg.transferSuccessful]) ∧
    (100000000000000000 : Double).units
      ≠ (rich.acct 0).balance.units - (4 : Double).units ∧
    (100000000000000000 : Double).units + (9 : Double).units
      ≠ (rich.acct 0).balance.units + (rich.acct 1).balance.units ∧
    (100000000000000000 : Double) + 9 ≠ (rich.acct 0).balance + (rich.acct 1).balance := by
  decide

/-- C1, amended: for every store, every sender `from_idx` below `account_count`
and every recipient `to_idx` different from it that the lookup by username
(option 1) or by id (option 2) resolves to, a transfer of an amount with
`0 < amt ≤ balance(from_idx)` succeeds; afterwards the sender's slot is the old
one with the balance `balance - amt`, the recipient's slot is the old one with
the balance `balance + amt`, both computed on `double`, every other slot is
unchanged and `account_count` is unchanged; the sender's balance is exactly
the old one minus the amount when the difference is not rounded, the
recipient's is exactly the old one plus the amount when the sum is not rounded,
and when neither is rounded the two balances add up exactly to what they
did. -/
theorem transfer_money_moves_amount (s : Store) (from_idx to_idx : Nat) (opt : Int)
    (target_user : Option String) (target_id : Option Int) (amt : Double)
    (hres : (opt = 1 ∧ ∃ u, target_user = some u ∧ find_by_username s u = (to_idx : Int)) ∨
      (opt = 2 ∧ ∃ n, target_id = some n ∧ find_by_id s n = (to_idx : Int)))
    (hne : to_idx ≠ from_idx) (hfrom : from_idx < s.account_count)
    (hpos : 0 < amt) (hle : amt ≤ (s.acct from_idx).balance) :
    ∃ s1 : Store,
      transfer_money s from_idx (some opt) target_user target_id (some amt)
        = (s1, [Msg.transferSuccessful]) ∧
      s1.acct from_idx
        = { s.acct from_idx with balance := (s.acct from_idx).balance - amt } ∧
      s1.acct to_idx = { s.acct to_idx with balance := (s.acct to_idx).balance + amt } ∧
      (∀ j, j ≠ from_idx → j ≠ to_idx → s1.acct j = s.acct j) ∧
      s1.account_count = s.account_count ∧
      (Double.exact_sub (s.acct from_idx).balance amt →
        (s1.acct from_idx).balance.units = (s.acct from_idx).balance.units - amt.units) ∧
      (Double.exact_add (s.acct to_idx).balance amt →
        (s1.acct to_idx).balance.units = (s.acct to_idx).balance.units + amt.units) ∧
      (Double.exact_sub (s.acct from_idx).balance amt →
        Double.exact_add (s.acct to_idx).balance amt →
        (s1.acct from_idx).balance.units + (s1.acct to_idx).balance.units
          = (s.acct from_idx).balance.units + (s.acct to_idx).balance.units) := by
  have hr : transfer_money.resolve s opt target_user target_id = .ok (to_idx : Int) := by
    rcases hres with ⟨h1, u, hu, hf⟩ | ⟨h2, n, hn, hf⟩
    · simp [transfer_money.resolve, h1, hu, hf]
    · simp [transfer_money.resolve, h2, hn, hf]
  have hto : to_idx < s.account_count := by
    rcases transfer_resolve_ok s opt target_user target_id _ hr with ⟨i, hi, hlt, _⟩
    have : to_idx = i := by omega
    rw [this]; exact hlt
  have hA : ((s.subBalance from_idx amt).addBalance to_idx amt).acct from_idx
      = { s.acct from_idx with balance := (s.acct from_idx).balance - amt } := by
    rw [acct_addBalance_ne _ _ _ _ (Ne.symm hne), acct_subBalance_eq _ _ _ hfrom]
  have hB : ((s.subBalance from_idx amt).addBalance to_idx amt).acct to_idx
      = { s.acct to_idx with balance := (s.acct to_idx).balance + amt } := by
    rw [acct_addBalance_eq _ _ _ (by rw [account_count_subBalance]; exact hto),
      acct_subBalance_ne _ _ _ _ hne]
  refine ⟨(s.subBalance from_idx amt).addBalance to_idx amt, ?_, hA, hB, ?_, ?_, ?_, ?_, ?_⟩
  · have h1 : ¬ ((to_idx : Int) = (from_idx : Int)) := by omega
    have h2 : ¬ amt ≤ 0 := double_not_le_of_lt 0 amt hpos
    have h3 : ¬ amt > (s.acct from_idx).balance := double_not_lt_of_le _ _ hle
    simp [transfer_money, hr, h1, h2, h3]
  · intro j hj1 hj2
    rw [acct_addBalance_ne _ _ _ _ hj2, acct_subBalance_ne _ _ _ _ hj1]
  · rw [account_count_addBalance, account_count_subBalance]
  · intro hx1
    rw [hA]
    simp only
    rw [double_sub_of_exact _ _ hx1]
    rfl
  · intro hx2
    rw [hB]
    simp only
    rw [double_add_of_exact _ _ hx2]
    rfl
  · intro hx1 hx2
    rw [hA, hB]
    simp only
    rw [double_sub_of_exact _ _ hx1, double_add_of_exact _ _ hx2]
    simp only [Double.units]
    ring

/-- The transfer of 40 from `alice` to `bob` in `demo`, recipient named by
username. -/
theorem transfer_money_moves_amount_witness :
    ∃ s1 : Store,
      transfer_money demo 0 (some 1) (some "bob") none (some 40)
        = (s1, [Msg.transferSuccessful]) ∧
      s1.acct 0 = { demo.acct 0 with balance := (demo.acct 0).balance - 40 } ∧
      s1.acct 1 = { demo.acct 1 with balance := (demo.acct 1).balance + 40 } ∧
      (∀ j, j ≠ 0 → j ≠ 1 → s1.acct j = demo.acct j) ∧
      s1.account_count = demo.account_count ∧
      (Double.exact_sub (demo.acct 0).balance 40 →
        (s1.acct 0).balance.units = (demo.acct 0).balance.units - (40 : Double).units) ∧
      (Double.exact_add (demo.acct 1).balance 40 →
        (s1.acct 1).balance.units = (demo.acct 1).balance.units + (40 : Double).units) ∧
      (Double.exact_sub (demo.acct 0).balance 40 →
        Double.exact_add (demo.acct 1).balance 40 →
        (s1.acct 0).balance.units + (s1.acct 1).balance.units
          = (demo.acct 0).balance.units + (demo.acct 1).balance.units) :=
  transfer_money_moves_amount demo 0 1 1 (some "bob") none 40
    (Or.inl ⟨rfl, "bob", rfl, by decide⟩) (by decide) (by decide) (by decide)
    (by decide)

/-- The counterexample to C2 as stated: in `rich`, `alice` (1e17) sends 1 to
`bob` (5).  The transfer succeeds; the slot of `alice` is as it was, 1e17 being
the double nearest to 1e17 - 1, and the balance of `bob` has changed to 6: one
of the two balances only has changed. -/
theorem transfer_money_one_sided :
    transfer_money rich 0 (some 1) (some "bob") none (some 1)
      = (⟨[⟨1, "Alice A", "alice", "pw1", 100000000000000000, true⟩,
           ⟨2, "Bob B", "bob", "pw2", 6, true⟩]⟩, [Msg.transferSuccessful]) ∧
    (transfer_money rich 0 (some 1) (some "bob") none (some 1)).1.acct 0 = rich.acct 0 ∧
    ((transfer_money rich 0 (some 1) (some "bob") none (some 1)).1.acct 1).balance
      ≠ (rich.acct 1).balance := by
  decide

/-- C2, amended: for every store, every sender below `account_count` and every request,
`transfer_money` prints a failure line and returns the store it was given
(a) when the recipient username matches no active account ("No active account
with that username."), (b) when the recipient id matches no active account ("No
active account with that ID."), (c) when the amount is `≤ 0` ("Amount must be
> 0." once the recipient has resolved to another account), (d) when the amount
exceeds the sender's balance ("Insufficient balance." once the recipient has
resolved to another account and the amount is positive); and (e) on every
request the store is either returned as it was, or the success line is printed
and both writes have been made with the amount `a` typed, neither `≤ 0` nor
above the sender's balance: the sender's balance is `balance - a` and the
recipient's is `balance + a`, both computed on `double`. -/
theorem transfer_money_failure_leaves_store (s : Store) (from_idx : Nat)
    (opt : Option Int) (target_user : Option String) (target_id : Option Int)
    (amt : Option Double) (hfrom : from_idx < s.account_count) :
    (∀ u, opt = some 1 → target_user = some u →
      (∀ i, i < s.account_count →
        ¬ ((s.acct i).active = true ∧ (s.acct i).username = u)) →
      transfer_money s from_idx opt target_user target_id amt
        = (s, [Msg.noActiveUsername])) ∧
    (∀ n, opt = some 2 → target_id = some n →
      (∀ i, i < s.account_count → ¬ ((s.acct i).active = true ∧ (s.acct i).id = n)) →
      transfer_money s from_idx opt target_user target_id amt = (s, [Msg.noActiveId])) ∧
    (∀ a, amt = some a → a ≤ 0 →
      (transfer_money s from_idx opt target_user target_id amt).1 = s ∧
      (transfer_money s from_idx opt target_user target_id amt).2
        ≠ [Msg.transferSuccessful] ∧
      (∀ o t, opt = some o → transfer_money.resolve s o target_user target_id = .ok t →
        t ≠ (from_idx : Int) →
        transfer_money s from_idx opt target_user target_id amt
          = (s, [Msg.amountMustBePositive]))) ∧
    (∀ a, amt = some a → a > (s.acct from_idx).balance →
      (transfer_money s from_idx opt target_user target_id amt).1 = s ∧
      (transfer_money s from_idx opt target_user target_id amt).2
        ≠ [Msg.transferSuccessful] ∧
      (∀ o t, opt = some o → transfer_money.resolve s o target_user target_id = .ok t →
        t ≠ (from_idx : Int) → 0 < a →
        transfer_money s from_idx opt target_user target_id amt
          = (s, [Msg.insufficientBalance]))) ∧
    ((transfer_money s from_idx opt target_user target_id amt).1 = s ∨
      ((transfer_money s from_idx opt target_user target_id amt).2
          = [Msg.transferSuccessful] ∧
        ∃ (to_idx : Nat) (a : Double), amt = some a ∧ to_idx ≠ from_idx ∧
          to_idx < s.account_count ∧ ¬ a ≤ 0 ∧ ¬ a > (s.acct from_idx).balance ∧
          (((transfer_money s from_idx opt target_user target_id amt).1.acct
              from_idx).balance = (s.acct from_idx).balance - a) ∧
          (((transfer_money s from_idx opt target_user target_id amt).1.acct
              to_idx).balance = (s.acct to_idx).balance + a))) := by
  refine ⟨?_, ?_, ?_, ?_, ?_⟩
  · intro u ho hu hnone
    have hf : find_by_username s u = -1 := (find_by_username_eq_neg_one s u).mpr hnone
    simp [transfer_money, transfer_money.resolve, ho, hu, hf]
  · intro n ho hn hnone
    have hf : find_by_id s n = -1 := (find_by_id_eq_neg_one s n).mpr hnone
    simp [transfer_money, transfer_money.resolve, ho, hn, hf]
  · intro a ha hle
    rcases transfer_money_cases s from_idx opt target_user target_id amt with
      ⟨h1, h2⟩ | ⟨o, t, b, _, _, _, _, _, hb, hpos, _, _⟩
    · refine ⟨h1, h2, ?_⟩
      intro o t ho hr hne
      simp [transfer_money, ho, hr, hne, ha, hle]
    · rw [ha] at hb
      have : a = b := Option.some.inj hb
      rw [this] at hle
      exact absurd hle hpos
  · intro a ha hgt
    rcases transfer_money_cases s from_idx opt target_user target_id amt with
      ⟨h1, h2⟩ | ⟨o, t, b, _, _, _, _, _, hb, _, hble, _⟩
    · refine ⟨h1, h2, ?_⟩
      intro o t ho hr hne hpos
      simp [transfer_money, ho, hr, hne, ha, double_not_le_of_lt 0 a hpos, hgt]
    · rw [ha] at hb
      have : a = b := Option.some.inj hb
      rw [this] at hgt
      exact absurd hgt hble
  · rcases transfer_money_cases s from_idx opt target_user target_id amt with
      ⟨h1, _⟩ | ⟨o, t, b, _, _, hne, hlt, _, hamt, hpos, hble, heq⟩
    · exact Or.inl h1
    · right
      rw [heq]
      refine ⟨rfl, t, b, hamt, hne, hlt, hpos, hble, ?_, ?_⟩
      · simp only
        rw [acct_addBalance_ne _ _ _ _ (Ne.symm hne), acct_subBalance_eq _ _ _ hfrom]
      · simp only
        rw [acct_addBalance_eq _ _ _ (by rw [account_count_subBalance]; exact hlt),
          acct_subBalance_ne _ _ _ _ hne]

/-- The transfer of 500 from `alice` (balance 100) to `bob` in `demo` is
refused and `demo` is returned. -/
theorem transfer_money_failure_leaves_store_witness :
    transfer_money demo 0 (some 1) (some "bob") none (some 500)
      = (demo, [Msg.insufficientBalance]) :=
  (transfer_money_failure_leaves_store demo 0 (some 1) (some "bob") none (some 500)
    (by decide)).2.2.2.1 500 rfl (by decide)
    |>.2.2 1 1 rfl (by rfl) (by decide) (by decide)

/-! ## Deposit and withdrawal -/

/-- The counterexample to C6 as stated: in `rich`, `alice` holds 1e17 and
withdraws 1, with `0 < 1 ≤ 1e17`.  The withdrawal succeeds and the store is as
it was: the balance is still 1e17, the double nearest to 1e17 - 1, and not the
old balance minus 1. -/
theorem withdraw_money_rounds :
    (0 : Double) < 1 ∧ (1 : Double) ≤ (rich.acct 0).balance ∧
    withdraw_money rich 0 [some 1] = some (rich, [Msg.withdrawalSuccessful]) ∧
    (rich.acct 0).balance.units ≠ (rich.acct 0).balance.units - (1 : Double).units := by
  decide

/-- C6, amended: for every account `idx` of the store with balance `b ≥ 0`: an
amount `≤ 0` is refused with "Please enter an amount greater than 0." and an
amount `> b` is refused with "Insufficient balance.", the loop going on from
the very same store; and after any number of refused amounts an amount with
`0 < amt ≤ b` ends the loop with the success line, the slot of `idx` being the
old one with balance `b - amt` computed on `double`, which is exactly the old
balance minus the amount when the difference is not rounded, every other slot
and `account_count` unchanged. -/
theorem withdraw_money_spec (s : Store) (idx : Nat) (pre : List Double) (amt : Double)
    (rest : List (Option Double)) (hidx : idx < s.account_count)
    (hb : 0 ≤ (s.acct idx).balance) :
    (amt ≤ 0 → withdraw_money s idx (some amt :: rest)
      = said Msg.amountNotPositive (withdraw_money s idx rest)) ∧
    (amt > (s.acct idx).balance → withdraw_money s idx (some amt :: rest)
      = said Msg.insufficientBalance (withdraw_money s idx rest)) ∧
    ((∀ a ∈ pre, a ≤ 0 ∨ a > (s.acct idx).balance) → 0 < amt →
      amt ≤ (s.acct idx).balance →
      ∃ s1 : Store,
        withdraw_money s idx (pre.map some ++ some amt :: rest)
          = some (s1, pre.map (fun a =>
              if a ≤ 0 then Msg.amountNotPositive else Msg.insufficientBalance)
            ++ [Msg.withdrawalSuccessful]) ∧
        s1.acct idx = { s.acct idx with balance := (s.acct idx).balance - amt } ∧
        (∀ j, j ≠ idx → s1.acct j = s.acct j) ∧
        s1.account_count = s.account_count ∧
        (Double.exact_sub (s.acct idx).balance amt →
          (s1.acct idx).balance.units = (s.acct idx).balance.units - amt.units)) := by
  refine ⟨?_, ?_, ?_⟩
  · intro h
    simp [withdraw_money, h]
  · intro h
    have hpos : ¬ amt ≤ 0 := double_not_le_of_lt 0 amt (double_lt_of_le_of_lt _ _ _ hb h)
    simp [withdraw_money, hpos, h]
  · intro hpre hpos hle
    refine ⟨s.subBalance idx amt, ?_, acct_subBalance_eq _ _ _ hidx,
      fun j hj => acct_subBalance_ne _ _ _ _ hj, account_count_subBalance _ _ _, ?_⟩
    rotate_left
    · intro hx
      rw [acct_subBalance_eq _ _ _ hidx]
      simp only
      rw [double_sub_of_exact _ _ hx]
      rfl
    induction pre with
    | nil =>
      simp [withdraw_money, double_not_le_of_lt 0 amt hpos, double_not_lt_of_le _ _ hle]
    | cons a pre ih =>
      have ih1 := ih (fun x hx => hpre x (List.mem_cons_of_mem _ hx))
      by_cases ha : a ≤ 0
      · simp only [List.map_cons, List.cons_append, withdraw_money, ha, if_true]
        change said _ (withdraw_money s idx (List.map some pre ++ some amt :: rest)) = _
        rw [ih1]; rfl
      · have ha2 : a > (s.acct idx).balance := by
          rcases hpre a (List.mem_cons_self _ _) with h | h
          · exact absurd h ha
          · exact h
        simp only [List.map_cons, List.cons_append, withdraw_money, ha, if_false, ha2,
          if_true]
        change said _ (withdraw_money s idx (List.map some pre ++ some amt :: rest)) = _
        rw [ih1]; rfl

/-- In `demo`, `alice` (balance 100) asks for -5, then 1000, then 30: two
refusals, then the balance is 70. -/
theorem withdraw_money_spec_witness :
    ∃ s1 : Store,
      withdraw_money demo 0 ([-5, 1000].map some ++ some 30 :: [])
        = some (s1, [-5, 1000].map (fun a =>
            if a ≤ 0 then Msg.amountNotPositive else Msg.insufficientBalance)
          ++ [Msg.withdrawalSuccessful]) ∧
      s1.acct 0 = { demo.acct 0 with balance := (demo.acct 0).balance - 30 } ∧
      (∀ j, j ≠ 0 → s1.acct j = demo.acct j) ∧
      s1.account_count = demo.account_count ∧
      (Double.exact_sub (demo.acct 0).balance 30 →
        (s1.acct 0).balance.units = (demo.acct 0).balance.units - (30 : Double).units) :=
  (withdraw_money_spec demo 0 [-5, 1000] 30 [] (by decide) (by decide)).2.2
    (by decide) (by decide) (by decide)

/-- The counterexample to C7 as stated: in `rich`, `alice` holds 1e17 and
deposits 1, with `1 > 0`.  The deposit succeeds and the store is as it was: the
balance is still 1e17, the double nearest to 1e17 + 1, and not the old balance
plus 1. -/
theorem deposit_money_rounds :
    (0 : Double) < 1 ∧
    deposit_money rich 0 [some 1] = some (rich, [Msg.depositSuccessful]) ∧
    (rich.acct 0).balance.units ≠ (rich.acct 0).balance.units + (1 : Double).units := by
  decide

/-- C7, amended: for every account `idx` of the store with balance `b`: an
amount `≤ 0` is refused with "Please enter an amount greater than 0.", the loop
going on from the very same store; and after any number of refused amounts an
amount `amt > 0` ends the loop with the success line, the slot of `idx` being
the old one with balance `b + amt` computed on `double`, which is exactly the
old balance plus the amount when the sum is not rounded, every other slot and
`account_count` unchanged. -/
theorem deposit_money_spec (s : Store) (idx : Nat) (pre : List Double) (amt : Double)
    (rest : List (Option Double)) (hidx : idx < s.account_count) :
    (amt ≤ 0 → deposit_money s idx (some amt :: rest)
      = said Msg.amountNotPositive (deposit_money s idx rest)) ∧
    ((∀ a ∈ pre, a ≤ 0) → 0 < amt →
      ∃ s1 : Store,
        deposit_money s idx (pre.map some ++ some amt :: rest)
          = some (s1, pre.map (fun _ => Msg.amountNotPositive)
            ++ [Msg.depositSuccessful]) ∧
        s1.acct idx = { s.acct idx with balance := (s.acct idx).balance + amt } ∧
        (∀ j, j ≠ idx → s1.acct j = s.acct j) ∧
        s1.account_count = s.account_count ∧
        (Double.exact_add (s.acct idx).balance amt →
          (s1.acct idx).balance.units = (s.acct idx).balance.units + amt.units)) := by
  refine ⟨?_, ?_⟩
  · intro h
    simp [deposit_money, h]
  · intro hpre hpos
    refine ⟨s.addBalance idx amt, ?_, acct_addBalance_eq _ _ _ hidx,
      fun j hj => acct_addBalance_ne _ _ _ _ hj, account_count_addBalance _ _ _, ?_⟩
    rotate_left
    · intro hx
      rw [acct_addBalance_eq _ _ _ hidx]
      simp only
      rw [double_add_of_exact _ _ hx]
      rfl
    induction pre with
    | nil => simp [deposit_money, double_not_le_of_lt 0 amt hpos]
    | cons a pre ih =>
      have ih1 := ih (fun x hx => hpre x (List.mem_cons_of_mem _ hx))
      have ha : a ≤ 0 := hpre a (List.mem_cons_self _ _)
      simp only [List.map_cons, List.cons_append, deposit_money, ha, if_true]
      change said _ (deposit_money s idx (List.map some pre ++ some amt :: rest)) = _
      rw [ih1]; rfl

/-- In `demo`, `bob` (balance 0) offers 0, then -3, then 25: two refusals, then
the balance is 25. -/
theorem deposit_money_spec_witness :
    ∃ s1 : Store,
      deposit_money demo 1 ([0, -3].map some ++ some 25 :: [])
        = some (s1, [0, -3].map (fun _ => Msg.amountNotPositive)
          ++ [Msg.depositSuccessful]) ∧
      s1.acct 1 = { demo.acct 1 with balance := (demo.acct 1).balance + 25 } ∧
      (∀ j, j ≠ 1 → s1.acct j = demo.acct j) ∧
      s1.account_count = demo.account_count ∧
      (Double.exact_add (demo.acct 1).balance 25 →
        (s1.acct 1).balance.units = (demo.acct 1).balance.units + (25 : Double).units) :=
  (deposit_money_spec demo 1 [0, -3] 25 [] (by decide)).2
    (by decide) (by decide)

/-! ## Closing an account -/

/-- The counterexample to C8 as stated.  In `demo`, `alice` is active with
balance 100, withdraws everything on closing and then answers 'n' to the
final question: her account is left active (with balance 0).  And in `rich`,
`bob` is active with balance 5 and closes his account moving everything to
`alice`, who holds 1e17, answering 'y': `bob` is closed with balance 0 and
`alice` still holds 1e17, the double nearest to 1e17 + 5, so her balance has
not gone up by 5. -/
theorem delete_account_declined_not_closed :
    ((demo.acct 0).active = true ∧ 0 < (demo.acct 0).balance ∧
      ((delete_account demo 0 (some 1) none (some 'n')).1.acct 0).active = true ∧
      ((delete_account demo 0 (some 1) none (some 'n')).1.acct 0).balance = 0) ∧
    ((rich.acct 1).active = true ∧ 0 < (rich.acct 1).balance ∧
      (rich.acct 0).active = true ∧ find_by_username rich "alice" = 0 ∧
      delete_account rich 1 (some 2) (some "alice") (some 'y')
        = (⟨[rich.acct 0, { rich.acct 1 with balance := 0, active := false }]⟩,
            [Msg.transferredAll, Msg.accountDeleted]) ∧
      (rich.acct 0).balance.units
        ≠ (rich.acct 0).balance.units + (rich.acct 1).balance.units) := by
  decide

/-- C8, amended: for every active account `idx`, when the final question is
answered 'y' or 'Y': with balance `b > 0` and option 1 (withdraw all) the slot
of `idx` ends as the old one with balance 0 and `active = 0`, every other slot
unchanged; with balance `b > 0` and option 2 naming a username that resolves to
another account `to_idx` with balance `c`, the slot of `to_idx` ends as the old
one with balance `c + b` computed on `double`, which is exactly `c` raised by
`b` when the sum is not rounded, the slot of `idx` as the old one with balance
0 and `active = 0`, every other slot unchanged; with balance 0 the slot of
`idx` ends as the old one with `active = 0` and no balance is written. -/
theorem delete_account_confirmed (s : Store) (idx : Nat) (opt : Option Int)
    (target_user : Option String) (ch : Option Char)
    (hact : (s.acct idx).active = true) (hch : ch = some 'y' ∨ ch = some 'Y') :
    (0 < (s.acct idx).balance → opt = some 1 →
      ∃ s1 : Store,
        delete_account s idx opt target_user ch
          = (s1, [Msg.allMoneyWithdrawn, Msg.accountDeleted]) ∧
        s1.acct idx = { s.acct idx with balance := 0, active := false } ∧
        (∀ j, j ≠ idx → s1.acct j = s.acct j) ∧
        s1.account_count = s.account_count) ∧
    (∀ (u : String) (to_idx : Nat), 0 < (s.acct idx).balance → opt = some 2 →
      target_user = some u → find_by_username s u = (to_idx : Int) → to_idx ≠ idx →
      ∃ s1 : Store,
        delete_account s idx opt target_user ch
          = (s1, [Msg.transferredAll, Msg.accountDeleted]) ∧
        s1.acct idx = { s.acct idx with balance := 0, active := false } ∧
        s1.acct to_idx
          = { s.acct to_idx with
              balance := (s.acct to_idx).balance + (s.acct idx).balance } ∧
        (s.acct to_idx).active = true ∧
        (∀ j, j ≠ idx → j ≠ to_idx → s1.acct j = s.acct j) ∧
        s1.account_count = s.account_count ∧
        (Double.exact_add (s.acct to_idx).balance (s.acct idx).balance →
          (s1.acct to_idx).balance.units
            = (s.acct to_idx).balance.units + (s.acct idx).balance.units)) ∧
    ((s.acct idx).balance = 0 →
      ∃ s1 : Store,
        delete_account s idx opt target_user ch = (s1, [Msg.accountDeleted]) ∧
        s1.acct idx = { s.acct idx with active := false } ∧
        (∀ j, j ≠ idx → s1.acct j = s.acct j) ∧
        s1.account_count = s.account_count) := by
  have hidx : idx < s.account_count := lt_account_count_of_active s idx hact
  refine ⟨?_, ?_, ?_⟩
  · intro hb ho
    refine ⟨(s.zeroBalance idx).deactivate idx, ?_, ?_, ?_, ?_⟩
    · simp [delete_account, delete_account.resolve, hact, hb, ho, hch]
    · rw [acct_deactivate_eq _ _ (by rw [account_count_zeroBalance]; exact hidx),
        acct_zeroBalance_eq _ _ hidx]
    · intro j hj
      rw [acct_deactivate_ne _ _ _ hj, acct_zeroBalance_ne _ _ _ hj]
    · rw [account_count_deactivate, account_count_zeroBalance]
  · intro u to_idx hb ho hu hf hne
    have hto := find_by_username_found s u to_idx hf
    have hne' : ¬ ((to_idx : Int) = (idx : Int)) := by omega
    have hacc : (((s.addBalance to_idx (s.acct idx).balance).zeroBalance idx).deactivate
        idx).acct to_idx
        = { s.acct to_idx with
            balance := (s.acct to_idx).balance + (s.acct idx).balance } := by
      rw [acct_deactivate_ne _ _ _ hne, acct_zeroBalance_ne _ _ _ hne,
        acct_addBalance_eq _ _ _ hto.1]
    refine ⟨((s.addBalance to_idx (s.acct idx).balance).zeroBalance idx).deactivate idx,
      ?_, ?_, hacc, hto.2.1, ?_, ?_, ?_⟩
    · simp [delete_account, delete_account.resolve, hact, hb, ho, hu, hf, hne', hch]
    · rw [acct_deactivate_eq _ _ (by
          rw [account_count_zeroBalance, account_count_addBalance]; exact hidx),
        acct_zeroBalance_eq _ _ (by rw [account_count_addBalance]; exact hidx),
        acct_addBalance_ne _ _ _ _ (Ne.symm hne)]
    · intro j hj1 hj2
      rw [acct_deactivate_ne _ _ _ hj1, acct_zeroBalance_ne _ _ _ hj1,
        acct_addBalance_ne _ _ _ _ hj2]
    · rw [account_count_deactivate, account_count_zeroBalance, account_count_addBalance]
    · intro hx
      rw [hacc]
      simp only
      rw [double_add_of_exact _ _ hx]
      rfl
  · intro hb
    have hb0 : ¬ (s.acct idx).balance > 0 := by
      rw [hb]
      exact double_lt_irrefl 0
    refine ⟨s.deactivate idx, ?_, acct_deactivate_eq _ _ hidx,
      fun j hj => acct_deactivate_ne _ _ _ hj, account_count_deactivate _ _⟩
    simp [delete_account, delete_account.resolve, hact, hb0, hch]

/-- In `demo`, `alice` closes her account moving her 100 to `bob` and answers
'y'. -/
theorem delete_account_confirmed_witness :
    ∃ s1 : Store,
      delete_account demo 0 (some 2) (some "bob") (some 'y')
        = (s1, [Msg.transferredAll, Msg.accountDeleted]) ∧
      s1.acct 0 = { demo.acct 0 with balance := 0, active := false } ∧
      s1.acct 1
        = { demo.acct 1 with balance := (demo.acct 1).balance + (demo.acct 0).balance } ∧
      (demo.acct 1).active = true ∧
      (∀ j, j ≠ 0 → j ≠ 1 → s1.acct j = demo.acct j) ∧
      s1.account_count = demo.account_count ∧
      (Double.exact_add (demo.acct 1).balance (demo.acct 0).balance →
        (s1.acct 1).balance.units
          = (demo.acct 1).balance.units + (demo.acct 0).balance.units) :=
  (delete_account_confirmed demo 0 (some 2) (some "bob") (some 'y') rfl
    (Or.inl rfl)).2.1 "bob" 1 (by decide) rfl rfl (by decide)
    (by decide)

/-- C9: for every active account `idx` with balance `> 0`, whatever is answered
to the final question, `delete_account` prints a failure line and returns the
store it was given when the option cannot be read, when the option is neither 1
nor 2, when with option 2 the username cannot be read or matches no active
account ("No such recipient username found or recipient inactive."), and when
with option 2 the username resolves to `idx` itself ("Cannot transfer to the
same account."). -/
theorem delete_account_rejected (s : Store) (idx : Nat) (opt : Option Int)
    (target_user : Option String) (ch : Option Char)
    (hact : (s.acct idx).active = true) (hb : 0 < (s.acct idx).balance) :
    (opt = none → delete_account s idx opt target_user ch = (s, [Msg.invalidInput])) ∧
    (∀ o, opt = some o → o ≠ 1 → o ≠ 2 →
      delete_account s idx opt target_user ch = (s, [Msg.invalidOption])) ∧
    (opt = some 2 → target_user = none →
      delete_account s idx opt target_user ch = (s, [Msg.invalidInput])) ∧
    (∀ u, opt = some 2 → target_user = some u →
      (∀ i, i < s.account_count →
        ¬ ((s.acct i).active = true ∧ (s.acct i).username = u)) →
      delete_account s idx opt target_user ch = (s, [Msg.noSuchRecipient])) ∧
    (∀ u, opt = some 2 → target_user = some u → find_by_username s u = (idx : Int) →
      delete_account s idx opt target_user ch = (s, [Msg.sameAccount])) := by
  refine ⟨?_, ?_, ?_, ?_, ?_⟩
  · intro ho
    simp [delete_account, delete_account.resolve, hact, hb, ho]
  · intro o ho h1 h2
    simp [delete_account, delete_account.resolve, hact, hb, ho, h1, h2]
  · intro ho hu
    simp [delete_account, delete_account.resolve, hact, hb, ho, hu]
  · intro u ho hu hnone
    have hf : find_by_username s u = -1 := (find_by_username_eq_neg_one s u).mpr hnone
    simp [delete_account, delete_account.resolve, hact, hb, ho, hu, hf]
  · intro u ho hu hf
    simp [delete_account, delete_account.resolve, hact, hb, ho, hu, hf]

/-- In `demo`, `alice` tries to close her account moving her money to herself,
and answers 'y': nothing happens. -/
theorem delete_account_rejected_witness :
    delete_account demo 0 (some 2) (some "alice") (some 'y') = (demo, [Msg.sameAccount]) :=
  (delete_account_rejected demo 0 (some 2) (some "alice") (some 'y') rfl
    (by decide)).2.2.2.2 "alice" rfl rfl (by decide)

/-! ## Invariants of the reachable states -/

/-- C3, the code at the failing input: `alice` opens an account and types `nan`
for the first deposit.  `scanf("%lf")` reads it as NaN, the guard `init < 0` is
false on NaN, and the account is stored with balance NaN: the state `nan_sys`
is reached from the empty store, its account is active, and its balance is not
`≥ 0`.  The guards `amt <= 0` and `amt > balance` let NaN through in the same
way: a deposit of `nan` turns the balance 100 of `demo` into NaN, and a
withdrawal of `inf` from a balance `inf` leaves `inf - inf`, which is NaN. -/
theorem nan_balance_reachable :
    run Sys.init nan_cmds = some nan_sys ∧ Reachable nan_sys ∧
    (nan_sys.store.acct 0).active = true ∧
    ¬ (0 ≤ (nan_sys.store.acct 0).balance) ∧
    (deposit_money demo 0 [some Double.nan]).map (fun r => (r.1.acct 0).balance)
      = some Double.nan ∧
    (withdraw_money ⟨[⟨1, "Alice A", "alice", "pw1", Double.inf false, true⟩]⟩ 0
        [some (Double.inf false)]).map (fun r => (r.1.acct 0).balance)
      = some Double.nan :=
  ⟨rfl, reachable_of_run Sys.init nan_cmds nan_sys Reachable.init rfl, rfl, by decide,
    by decide, by decide⟩

/-- C4: in every reachable state the account in slot `i` has id `i + 1`, so the
ids in the store, of active and closed accounts alike, are pairwise different;
and a menu round from such a state never lowers `account_count`, keeps the id
of every account there is, and gives an account it appends the id
`account_count + 1`, which no account of the store has. -/
theorem ids_sequential_of_reachable (st : Sys) (h : Reachable st) :
    (∀ i, i < st.store.account_count → (st.store.acct i).id = (i : Int) + 1) ∧
    (∀ i j, i < st.store.account_count → j < st.store.account_count →
      (st.store.acct i).id = (st.store.acct j).id → i = j) ∧
    (∀ c st1, step st c = some st1 →
      st.store.account_count ≤ st1.store.account_count ∧
      st1.store.account_count ≤ st.store.account_count + 1 ∧
      (∀ i, i < st.store.account_count → (st1.store.acct i).id = (st.store.acct i).id) ∧
      (∀ i, st.store.account_count ≤ i → i < st1.store.account_count →
        (st1.store.acct i).id = (st.store.account_count : Int) + 1 ∧
        ∀ j, j < st.store.account_count → (st.store.acct j).id ≠ (st1.store.acct i).id)) := by
  have hinv := inv_of_reachable st h
  refine ⟨hinv.1, ?_, ?_⟩
  · intro i j hi hj hid
    rw [hinv.1 i hi, hinv.1 j hj] at hid
    omega
  · intro c st1 hs
    have hk := step_keeps_identity st st1 c hinv hs
    have hinv1 := inv_step st st1 c hinv hs
    refine ⟨hk.1, hk.2.1, fun i hi => (hk.2.2 i hi).1, ?_⟩
    intro i hi1 hi2
    have hi : i = st.store.account_count := by omega
    have hid := hinv1.1 i hi2
    rw [hi] at hid ⊢
    refine ⟨hid, fun j hj => ?_⟩
    rw [hid, hinv.1 j hj]
    omega

/-- The state at the end of `demo_cmds` has ids 1 and 2, and the account that
`carol` opens there gets id 3. -/
theorem ids_sequential_of_reachable_witness :
    (demo_sys.store.acct 0).id = 1 ∧ (demo_sys.store.acct 1).id = 2 ∧
    (demo_sys_carol.store.acct 2).id = 3 :=
  have h := ids_sequential_of_reachable demo_sys
    (reachable_of_run Sys.init demo_cmds demo_sys Reachable.init rfl)
  ⟨h.1 0 (by decide), h.1 1 (by decide),
    ((h.2.2 (.create "Carol C" [some "carol"] "pw3" [some 7]) demo_sys_carol rfl).2.2.2 2
      (by decide) (by decide)).1⟩

/-- C5: in every reachable state no two different active accounts have the same
username (equality of the two strings); a menu round from such a state keeps
the username of every account there is, and a round other than account
creation keeps `account_count` and the username of every slot. -/
theorem usernames_unique_of_reachable (st : Sys) (h : Reachable st) :
    (∀ i j, (st.store.acct i).active = true → (st.store.acct j).active = true →
      (st.store.acct i).username = (st.store.acct j).username → i = j) ∧
    (∀ c st1, step st c = some st1 →
      ∀ i, i < st.store.account_count →
        (st1.store.acct i).username = (st.store.acct i).username) ∧
    (∀ c st1, step st c = some st1 →
      (∀ name users password inits, c ≠ Cmd.create name users password inits) →
      st1.store.account_count = st.store.account_count ∧
      ∀ i, (st1.store.acct i).username = (st.store.acct i).username) := by
  have hinv := inv_of_reachable st h
  refine ⟨hinv.2.1, ?_, ?_⟩
  · intro c st1 hs i hi
    exact ((step_keeps_identity st st1 c hinv hs).2.2 i hi).2.2.1
  · intro c st1 hs hc
    rcases step_effect st st1 c hinv hs with
      ⟨hcount, hslots⟩ | ⟨_, name, users, pw, inits, _, _, hcreate, _⟩
    · exact ⟨hcount, fun i => (hslots i).2.2.1⟩
    · exact absurd hcreate (hc name users pw inits)

/-- The username of `alice` at the end of `demo_cmds` is still hers after
`carol` has opened an account. -/
theorem usernames_unique_of_reachable_witness :
    (demo_sys_carol.store.acct 0).username = (demo_sys.store.acct 0).username :=
  (usernames_unique_of_reachable demo_sys
    (reachable_of_run Sys.init demo_cmds demo_sys Reachable.init rfl)).2.1
    (.create "Carol C" [some "carol"] "pw3" [some 7]) demo_sys_carol rfl 0 (by decide)

/-! ## Closed accounts -/

/-- The counterexample to C10 as stated: `closed_sys` is reached by
`closing_cmds` and its account 0, username `alice`, is closed; one account
creation later (`reused_sys`) a new active account holds the username `alice`:
`login` with that username does not fail with "No such username or account
inactive." but returns index 2 (with the new password) or prints "Incorrect
password." (with the password of the closed account), and a transfer from `bob`
naming that username does not fail with "No active account with that
username." but succeeds. -/
theorem closed_username_taken_over :
    run Sys.init closing_cmds = some closed_sys ∧
    (closed_sys.store.acct 0).active = false ∧
    (closed_sys.store.acct 0).username = "alice" ∧
    step closed_sys (.create "Alice B" [some "alice"] "pw9" [some 5]) = some reused_sys ∧
    login reused_sys.store (some "alice") (some "pw9") = (2, [Msg.welcome]) ∧
    login reused_sys.store (some "alice") (some "pw1") = (-1, [Msg.incorrectPassword]) ∧
    (transfer_money reused_sys.store 1 (some 1) (some "alice") none (some 10)).2
      = [Msg.transferSuccessful] := by
  refine ⟨rfl, rfl, rfl, rfl, rfl, rfl, rfl⟩

/-- C10, amended: once an account `i` is closed in a reachable state, in every
state a run leads to from there: its slot is as it was when closed (so its
balance and status never change again); it is not the account of the running
session, so no deposit, withdrawal, transfer or closure is issued with it as
source, and `delete_account` called on it prints "Account already inactive."
and writes nothing; `login` never returns its index, and fails with "No such
username or account inactive." for its username as long as no active account
holds that username; a transfer naming its id fails with "No active account
with that ID." and writes nothing; a transfer naming its username fails with
"No active account with that username." and writes nothing as long as no
active account holds that username. -/
theorem closed_account_stays_closed (st : Sys) (h : Reachable st) (i : Nat)
    (hi : i < st.store.account_count) (hclosed : (st.store.acct i).active = false)
    (cs : List Cmd) (st1 : Sys) (hrun : run st cs = some st1) :
    st1.store.acct i = st.store.acct i ∧
    st1.session ≠ some i ∧
    (∀ opt target_user ch,
      delete_account st1.store i opt target_user ch = (st1.store, [Msg.alreadyInactive])) ∧
    (∀ uname pass, (login st1.store uname pass).1 ≠ (i : Int)) ∧
    (∀ pass,
      (∀ j, j < st1.store.account_count →
        ¬ ((st1.store.acct j).active = true ∧
          (st1.store.acct j).username = (st.store.acct i).username)) →
      login st1.store (some (st.store.acct i).username) (some pass)
        = (-1, [Msg.noSuchUsername])) ∧
    (∀ from_idx target_user amt,
      transfer_money st1.store from_idx (some 2) target_user (some (st.store.acct i).id) amt
        = (st1.store, [Msg.noActiveId])) ∧
    (∀ from_idx target_id amt,
      (∀ j, j < st1.store.account_count →
        ¬ ((st1.store.acct j).active = true ∧
          (st1.store.acct j).username = (st.store.acct i).username)) →
      transfer_money st1.store from_idx (some 1) (some (st.store.acct i).username)
          target_id amt
        = (st1.store, [Msg.noActiveUsername])) := by
  have hinv := inv_of_reachable st h
  have hinv1 := inv_of_reachable st1 (reachable_of_run st cs st1 h hrun)
  obtain ⟨hsame, hi1⟩ := run_keeps_closed st cs st1 hinv hrun i hi hclosed
  have hclosed1 : (st1.store.acct i).active = false := by rw [hsame]; exact hclosed
  refine ⟨hsame, ?_, ?_, ?_, ?_, ?_, ?_⟩
  · intro hs
    have := hinv1.2.2.1 i hs
    rw [hclosed1] at this
    cases this
  · intro opt tu ch
    simp [delete_account, hclosed1]
  · intro uname pass hl
    rcases login_result st1.store uname pass with hneg | ⟨k, _, _, _, _, hk, _, _, hact, _, _⟩
    · rw [hneg] at hl; omega
    · rw [hk] at hl
      have hki : k = i := by
        have : (k : Int) = (i : Int) := hl
        omega
      rw [hki, hclosed1] at hact
      cases hact
  · intro pass hnone
    have hf := (find_by_username_eq_neg_one st1.store _).mpr hnone
    simp [login, hf]
  · intro from_idx tu amt
    have hf : find_by_id st1.store (st.store.acct i).id = -1 := by
      rw [find_by_id_eq_neg_one]
      intro j hj ⟨hact, hid⟩
      rw [hinv1.1 j hj, hinv.1 i hi] at hid
      have hji : j = i := by omega
      rw [hji, hclosed1] at hact
      cases hact
    simp [transfer_money, transfer_money.resolve, hf]
  · intro from_idx tid amt hnone
    have hf := (find_by_username_eq_neg_one st1.store _).mpr hnone
    simp [transfer_money, transfer_money.resolve, hf]

/-- In `reused_sys`, one account creation after `closed_sys`, the closed
account 0 is still as it was and a transfer from `bob` to id 1 is refused. -/
theorem closed_account_stays_closed_witness :
    reused_sys.store.acct 0 = closed_sys.store.acct 0 ∧
    transfer_money reused_sys.store 1 (some 2) none (some (closed_sys.store.acct 0).id)
      (some 3) = (reused_sys.store, [Msg.noActiveId]) :=
  have h := closed_account_stays_closed closed_sys
    (reachable_of_run Sys.init closing_cmds closed_sys Reachable.init rfl) 0
    (by decide) rfl [.create "Alice B" [some "alice"] "pw9" [some 5]] reused_sys rfl
  ⟨h.1, h.2.2.2.2.2.1 1 none (some 3)⟩

/-! ## Transfer to oneself -/

/-- C11: in every reachable state, for every active account `i`, whatever the
amount typed (or not typed) would be, a transfer from `i` that names the
recipient by the username of `i` (option 1) or by the id of `i` (option 2)
prints "Cannot transfer to the same account." and returns the store it was
given. -/
theorem transfer_to_self_refused (st : Sys) (h : Reachable st) (i : Nat)
    (hact : (st.store.acct i).active = true) (target_user : Option String)
    (target_id : Option Int) (amt : Option Double) :
    transfer_money st.store i (some 1) (some (st.store.acct i).username) target_id amt
      = (st.store, [Msg.sameAccount]) ∧
    transfer_money st.store i (some 2) target_user (some (st.store.acct i).id) amt
      = (st.store, [Msg.sameAccount]) := by
  have hinv := inv_of_reachable st h
  have hu := find_by_username_own st.store i hact
    (fun j hj hju => hinv.2.1 j i hj hact hju)
  have hn := find_by_id_own st.store i hact hinv.1
  constructor
  · simp [transfer_money, transfer_money.resolve, hu]
  · simp [transfer_money, transfer_money.resolve, hn]

/-- At the end of `demo_cmds`, `alice` cannot send 10 to `alice`, nor to id
1. -/
theorem transfer_to_self_refused_witness :
    transfer_money demo_sys.store 0 (some 1) (some (demo_sys.store.acct 0).username) none
        (some 10) = (demo_sys.store, [Msg.sameAccount]) ∧
    transfer_money demo_sys.store 0 (some 2) none (some (demo_sys.store.acct 0).id)
        (some 10) = (demo_sys.store, [Msg.sameAccount]) :=
  transfer_to_self_refused demo_sys
    (reachable_of_run Sys.init demo_cmds demo_sys Reachable.init rfl) 0 rfl none none
    (some 10)

/-! ## Account creation -/

/-- The counterexample to C12 as stated: `full_sys` is reachable, all its
hundred accounts are closed, the first of them held the username `alice` and
no active account holds it, and still `create_account` with the username
`alice` does not succeed: it prints "Sorry, maximum number of accounts
reached" and returns the store it was given. -/
theorem create_account_reuse_refused_when_full :
    Reachable full_sys ∧
    (full_sys.store.acct 0).username = "alice" ∧
    (full_sys.store.acct 0).active = false ∧
    find_by_username full_sys.store "alice" = -1 ∧
    create_account full_sys.store "Alice B" [some "alice"] "pw9" [some 5]
      = some (full_sys.store, [Msg.maxAccountsReached]) :=
  ⟨reachable_full_sys, rfl, rfl, rfl, rfl⟩

/-- C12, amended: for every store with `account_count < MAX_ACCOUNTS`: when an
active account has the username `u`, `create_account` refuses `u` with "That
username is already taken" and goes on with the next username typed, and an
account it appends does not have the username `u`; when no active account has
the username `u` (as after the account that had it was closed),
`create_account` with the username `u` and a first deposit `d ≥ 0` succeeds and
appends an active account with the username `u`. -/
theorem create_account_username_check (s : Store) (name password u : String)
    (users : List (Option String)) (inits : List (Option Double))
    (hroom : s.account_count < MAX_ACCOUNTS) :
    ((∃ i, i < s.account_count ∧ (s.acct i).active = true ∧ (s.acct i).username = u) →
      create_account s name (some u :: users) password inits
        = said Msg.usernameTaken (create_account s name users password inits) ∧
      ∀ s1 out, create_account s name (some u :: users) password inits = some (s1, out) →
        ∀ j, s.account_count ≤ j → j < s1.account_count → (s1.acct j).username ≠ u) ∧
    ((∀ i, i < s.account_count →
        ¬ ((s.acct i).active = true ∧ (s.acct i).username = u)) →
      ∀ d, 0 ≤ d →
        create_account s name (some u :: users) password (some d :: inits)
          = some (⟨s.accounts ++ [⟨(s.account_count : Int) + 1, name, u, password, d, true⟩]⟩,
              [Msg.accountCreated])) := by
  have hfull : ¬ s.account_count ≥ MAX_ACCOUNTS := not_le.mpr hroom
  constructor
  · intro htaken
    have hloop := read_username_taken s u users htaken
    constructor
    · simp only [create_account, hfull, if_false]
      rw [hloop]
      cases create_account.read_username s users with
      | none => rfl
      | some p =>
        obtain ⟨v, out1⟩ := p
        cases create_account.read_init inits with
        | none => rfl
        | some q => rfl
    · intro s1 out hc j hj1 hj2
      rcases create_account_effect _ _ _ _ _ _ _ hc with
        ⟨hge, _, _⟩ | ⟨_, v, init, hs1, hfree, _⟩
      · exact absurd hroom (not_lt.mpr hge)
      · have hj : j = s.account_count := by
          rw [hs1] at hj2
          simp only [Store.account_count, List.length_append, List.length_singleton] at hj1 hj2
          simp only [Store.account_count]
          omega
        rw [hs1, hj, acct_append, if_neg (lt_irrefl _), if_pos rfl]
        intro hvu
        rcases htaken with ⟨i, hi, hact, hu⟩
        have hvu1 : v = u := hvu
        rw [hvu1] at hfree
        exact (find_by_username_eq_neg_one s u).mp hfree i hi ⟨hact, hu⟩
  · intro hnone d hd
    have hf : find_by_username s u = -1 := (find_by_username_eq_neg_one s u).mpr hnone
    have hd1 : ¬ d < 0 := double_not_lt_of_le 0 d hd
    simp [create_account, hfull, create_account.read_username, hf,
      create_account.read_init, hd1]

/-- In `closed_sys` the username `alice` of the closed account can be taken
again, with a first deposit of 5. -/
theorem create_account_username_check_witness :
    create_account closed_sys.store "Alice B" (some "alice" :: []) "pw9" (some 5 :: [])
      = some (⟨closed_sys.store.accounts ++
          [⟨(closed_sys.store.account_count : Int) + 1, "Alice B", "alice", "pw9", 5, true⟩]⟩,
          [Msg.accountCreated]) :=
  (create_account_username_check closed_sys.store "Alice B" "pw9" "alice" [] []
    (by decide)).2 (by decide) 5 (by decide)

/-- The counterexample to C13 as stated: in the reachable state `full_sys` no
active account has the username `bob` and the first deposit 5 is not negative,
and still `create_account` appends nothing: it prints "Sorry, maximum number of
accounts reached" and returns the store it was given. -/
theorem create_account_appends_nothing_when_full :
    Reachable full_sys ∧
    full_sys.store.account_count = MAX_ACCOUNTS ∧
    find_by_username full_sys.store "bob" = -1 ∧
    create_account full_sys.store "Bob B" [some "bob"] "pw2" [some 5]
      = some (full_sys.store, [Msg.maxAccountsReached]) :=
  ⟨reachable_full_sys, rfl, rfl, rfl⟩

/-- C13, amended: for every store with `account_count < MAX_ACCOUNTS` and every
username `u` that no active account has: with a first deposit `d ≥ 0`,
`create_account` appends exactly one account, with id `account_count + 1`,
balance `d`, `active = 1` and the name, username and password typed, and keeps
every slot there was; a first deposit `d < 0` is refused with "Deposit cannot
be negative." and the loop goes on with the next amount typed; and whatever is
typed, an account that the call appends has a balance that is not negative: it
is not `< 0`, and it is `≥ 0` unless it is NaN, the one double that is neither
`< 0` nor `≥ 0` (a typed `nan` is let through, as in `nan_sys`). -/
theorem create_account_appends (s : Store) (name password u : String)
    (users : List (Option String)) (d : Double) (inits : List (Option Double))
    (hroom : s.account_count < MAX_ACCOUNTS)
    (hfree : ∀ i, i < s.account_count →
      ¬ ((s.acct i).active = true ∧ (s.acct i).username = u)) :
    (0 ≤ d →
      ∃ s1 : Store,
        create_account s name (some u :: users) password (some d :: inits)
          = some (s1, [Msg.accountCreated]) ∧
        s1.account_count = s.account_count + 1 ∧
        s1.acct s.account_count
          = ⟨(s.account_count : Int) + 1, name, u, password, d, true⟩ ∧
        ∀ i, i < s.account_count → s1.acct i = s.acct i) ∧
    (d < 0 →
      create_account s name (some u :: users) password (some d :: inits)
        = said Msg.depositNegative
            (create_account s name (some u :: users) password inits)) ∧
    (∀ s1 out,
      create_account s name (some u :: users) password (some d :: inits) = some (s1, out) →
      ∀ j, s.account_count ≤ j →
        ¬ (s1.acct j).balance < 0 ∧
        ((s1.acct j).balance ≠ Double.nan → 0 ≤ (s1.acct j).balance)) := by
  have hfull : ¬ s.account_count ≥ MAX_ACCOUNTS := not_le.mpr hroom
  have hf : find_by_username s u = -1 := (find_by_username_eq_neg_one s u).mpr hfree
  refine ⟨?_, ?_, ?_⟩
  · intro hd
    have hd1 : ¬ d < 0 := double_not_lt_of_le 0 d hd
    refine ⟨⟨s.accounts ++ [⟨(s.account_count : Int) + 1, name, u, password, d, true⟩]⟩,
      ?_, ?_, ?_, ?_⟩
    · simp [create_account, hfull, create_account.read_username, hf,
        create_account.read_init, hd1]
    · simp [Store.account_count]
    · rw [acct_append, if_neg (lt_irrefl _), if_pos rfl]
    · intro i hi
      rw [acct_append, if_pos hi]
  · intro hd
    simp only [create_account, hfull, if_false, create_account.read_username, hf,
      ne_eq, not_true_eq_false, create_account.read_init, hd, if_true]
    cases create_account.read_init inits with
    | none => rfl
    | some q => rfl
  · intro s1 out hc j hj
    rcases create_account_effect _ _ _ _ _ _ _ hc with
      ⟨hge, _, _⟩ | ⟨_, v, init, hs1, _, hinit⟩
    · exact absurd hroom (not_lt.mpr hge)
    · rw [hs1, acct_append, if_neg (not_lt.mpr hj)]
      split_ifs
      · exact ⟨hinit, fun hn => double_le_of_not_lt _ 0 hinit hn (by decide)⟩
      · exact ⟨by decide, fun _ => by decide⟩

/-- In `demo`, `carol` opens an account with 7: it gets id 3. -/
theorem create_account_appends_witness :
    ∃ s1 : Store,
      create_account demo "Carol C" (some "carol" :: []) "pw3" (some 7 :: [])
        = some (s1, [Msg.accountCreated]) ∧
      s1.account_count = demo.account_count + 1 ∧
      s1.acct demo.account_count
        = ⟨(demo.account_count : Int) + 1, "Carol C", "carol", "pw3", 7, true⟩ ∧
      ∀ i, i < demo.account_count → s1.acct i = demo.acct i :=
  (create_account_appends demo "Carol C" "pw3" "carol" [] 7 [] (by decide)
    (by decide)).1 (by decide)


/-! ## Conservation of the active balances -/

/-- The counterexample to C14 as stated: `rich_session` is reached by
`rich_cmds`, `alice` (1e17) is logged in and sends 4 to `bob` (5).  The
transfer succeeds, `alice` still holds 1e17, the double nearest to 1e17 - 4,
and `bob` holds 9: the exact sum of the active balances has grown by 4, and the
sum of the two balances computed on `double` has gone from 1e17 to
1e17 + 16. -/
theorem transfer_changes_active_total :
    run Sys.init rich_cmds = some rich_session ∧ Reachable rich_session ∧
    transfer_money rich_session.store 0 (some 1) (some "bob") none (some 4)
      = (⟨[rich.acct 0, { rich.acct 1 with balance := 9 }]⟩, [Msg.transferSuccessful]) ∧
    (transfer_money rich_session.store 0 (some 1) (some "bob") none (some 4)).1.active_total
      = rich_session.store.active_total + (4 : Double).units ∧
    (transfer_money rich_session.store 0 (some 1) (some "bob") none (some 4)).1.active_total
      ≠ rich_session.store.active_total ∧
    (rich.acct 0).balance + (rich.acct 1).balance = 100000000000000000 ∧
    (rich.acct 0).balance + (9 : Double) = 100000000000000016 :=
  ⟨rfl, reachable_of_run Sys.init rich_cmds rich_session Reachable.init rfl, by decide,
    by decide, by decide, by decide, by decide⟩

/-- C14, amended: in every reachable state, with `idx` the account of the
running session if there is one, and the sum of the active balances taken
exactly (`active_total`, in which a balance that is an infinity or NaN counts
as 0): a call of `transfer_money` that does not succeed keeps the sum, and one
that succeeds changes it by what the two balances written have changed by, so
keeps it when neither the balance of the sender minus the amount nor the
balance of the recipient plus the amount is rounded; a `delete_account` on a
balance `b > 0` with option 2 (transfer all) is refused and writes nothing, or
changes the sum by what the balance of the recipient has changed by less `b`,
so keeps it when the balance of the recipient plus `b` is not rounded; a
returning `deposit_money` has added to the balance of `idx` the first amount
typed that is not `≤ 0`, the sum has changed by what that balance has changed
by, so has grown by that amount when the new balance is not rounded; a
returning `withdraw_money` has taken from it the first amount typed that is
neither `≤ 0` nor above the balance, the sum has changed by what that balance
has changed by, so has shrunk by that amount when the new balance is not
rounded; `delete_account` with option 1 (withdraw all) on a balance `b > 0`
lowers the sum by `b`; and a `create_account` that appends an account gives it
the first amount typed that is not `< 0` and raises the sum by that amount. -/
theorem active_total_changes (st : Sys) (h : Reachable st) :
    (∀ idx, st.session = some idx →
    (∀ opt target_user target_id amt,
      ((transfer_money st.store idx opt target_user target_id amt).2
          ≠ [Msg.transferSuccessful] ∧
        (transfer_money st.store idx opt target_user target_id amt).1.active_total
          = st.store.active_total) ∨
      (∃ (to_idx : Nat) (a : Double), amt = some a ∧ to_idx ≠ idx ∧
        (st.store.acct to_idx).active = true ∧
        transfer_money st.store idx opt target_user target_id amt
          = ((st.store.subBalance idx a).addBalance to_idx a, [Msg.transferSuccessful]) ∧
        (transfer_money st.store idx opt target_user target_id amt).1.active_total
          = st.store.active_total
            - (st.store.acct idx).balance.units
            + ((st.store.acct idx).balance - a).units
            - (st.store.acct to_idx).balance.units
            + ((st.store.acct to_idx).balance + a).units ∧
        (Double.exact_sub (st.store.acct idx).balance a →
          Double.exact_add (st.store.acct to_idx).balance a →
          (transfer_money st.store idx opt target_user target_id amt).1.active_total
            = st.store.active_total))) ∧
    (∀ target_user ch, 0 < (st.store.acct idx).balance →
      (delete_account st.store idx (some 2) target_user ch).1 = st.store ∨
      (∃ (u : String) (to_idx : Nat), target_user = some u ∧
        find_by_username st.store u = (to_idx : Int) ∧ to_idx ≠ idx ∧
        (st.store.acct to_idx).active = true ∧
        (delete_account st.store idx (some 2) target_user ch).1.active_total
          = st.store.active_total
            - (st.store.acct to_idx).balance.units
            + ((st.store.acct to_idx).balance + (st.store.acct idx).balance).units
            - (st.store.acct idx).balance.units ∧
        (Double.exact_add (st.store.acct to_idx).balance (st.store.acct idx).balance →
          (delete_account st.store idx (some 2) target_user ch).1.active_total
            = st.store.active_total))) ∧
    (∀ amts s1 out, deposit_money st.store idx amts = some (s1, out) →
      ∃ (pre : List (Option Double)) (a : Double) (rest : List (Option Double)),
        amts = pre ++ some a :: rest ∧ (∀ b, some b ∈ pre → b ≤ 0) ∧ ¬ a ≤ 0 ∧
        s1 = st.store.addBalance idx a ∧
        s1.active_total
          = st.store.active_total - (st.store.acct idx).balance.units
            + ((st.store.acct idx).balance + a).units ∧
        (Double.exact_add (st.store.acct idx).balance a →
          s1.active_total = st.store.active_total + a.units)) ∧
    (∀ amts s1 out, withdraw_money st.store idx amts = some (s1, out) →
      ∃ (pre : List (Option Double)) (a : Double) (rest : List (Option Double)),
        amts = pre ++ some a :: rest ∧
        (∀ b, some b ∈ pre → b ≤ 0 ∨ b > (st.store.acct idx).balance) ∧
        ¬ a ≤ 0 ∧ ¬ a > (st.store.acct idx).balance ∧
        s1 = st.store.subBalance idx a ∧
        s1.active_total
          = st.store.active_total - (st.store.acct idx).balance.units
            + ((st.store.acct idx).balance - a).units ∧
        (Double.exact_sub (st.store.acct idx).balance a →
          s1.active_total = st.store.active_total - a.units)) ∧
    (∀ target_user ch, 0 < (st.store.acct idx).balance →
      (delete_account st.store idx (some 1) target_user ch).1.active_total
        = st.store.active_total - (st.store.acct idx).balance.units)) ∧
    (∀ name users password inits s1 out,
      create_account st.store name users password inits = some (s1, out) →
      s1.account_count = st.store.account_count + 1 →
      ∃ (u : String) (init : Double) (pre rest : List (Option Double)),
        inits = pre ++ some init :: rest ∧ (∀ b, some b ∈ pre → b < 0) ∧ ¬ init < 0 ∧
        s1 = ⟨st.store.accounts ++
          [⟨(st.store.account_count : Int) + 1, name, u, password, init, true⟩]⟩ ∧
        s1.active_total = st.store.active_total + init.units) := by
  have hinv := inv_of_reachable st h
  refine ⟨fun idx hs => ?_, ?_⟩
  rotate_left
  · intro name users pw inits s1 out hc hcount
    rcases create_account_accepts _ _ _ _ _ _ _ hc hcount with
      ⟨u, init, pre, rest, hin, hpre, hinit, hs1⟩
    refine ⟨u, init, pre, rest, hin, hpre, hinit, hs1, ?_⟩
    rw [hs1]
    show active_total (st.store.accounts ++ _) = _
    rw [active_total_append]
    simp [Store.active_total]
  have hact : (st.store.acct idx).active = true := hinv.2.2.1 idx hs
  have hidx := lt_account_count_of_active st.store idx hact
  refine ⟨?_, ?_, ?_, ?_, ?_⟩
  · intro opt tu tid amt
    rcases transfer_money_cases st.store idx opt tu tid amt with
      ⟨h1, h2⟩ | ⟨o, t, a, _, _, hne, _, htact, hamt, _, _, heq⟩
    · left
      exact ⟨h2, by rw [h1]⟩
    · right
      have hsum : ((st.store.subBalance idx a).addBalance t a).active_total
          = st.store.active_total
            - (st.store.acct idx).balance.units
            + ((st.store.acct idx).balance - a).units
            - (st.store.acct t).balance.units
            + ((st.store.acct t).balance + a).units := by
        rw [active_total_addBalance _ _ _ (by rw [active_subBalance]; exact htact),
          acct_subBalance_ne _ _ _ _ hne, active_total_subBalance _ _ _ hact]
      refine ⟨t, a, hamt, hne, htact, heq, ?_, fun hx1 hx2 => ?_⟩
      · rw [heq]
        exact hsum
      · rw [heq]
        show ((st.store.subBalance idx a).addBalance t a).active_total = _
        rw [hsum, double_sub_of_exact _ _ hx1, double_add_of_exact _ _ hx2]
        simp only [Double.units]
        ring
  · intro tu ch hb
    have hd := delete_account_of_resolve st.store idx (some 2) tu ch hact
    rcases delete_resolve_cases st.store idx (some 2) tu with
      ⟨m, hr⟩ | ⟨hnb, _⟩ | ⟨_, ho, _⟩ | ⟨_, _, u, t, hu, hf, hne, _, htact, hr⟩
    · left
      rw [hd.1 m hr]
    · exact absurd hb hnb
    · exact absurd (Option.some.inj ho) (by decide)
    · right
      have hact1 : ((st.store.addBalance t (st.store.acct idx).balance).acct idx).active
          = true := by rw [active_addBalance]; exact hact
      have hact2 : (((st.store.addBalance t (st.store.acct idx).balance).zeroBalance
          idx).acct idx).active = true := by rw [active_zeroBalance]; exact hact1
      have hm : ((st.store.addBalance t (st.store.acct idx).balance).zeroBalance
          idx).active_total
          = st.store.active_total
            - (st.store.acct t).balance.units
            + ((st.store.acct t).balance + (st.store.acct idx).balance).units
            - (st.store.acct idx).balance.units := by
        rw [active_total_zeroBalance _ _ hact1, active_total_addBalance _ _ _ htact,
          acct_addBalance_ne _ _ _ _ (Ne.symm hne)]
      have hz : (((st.store.addBalance t (st.store.acct idx).balance).zeroBalance
          idx).acct idx).balance = 0 := by
        rw [acct_zeroBalance_eq _ _ (by rw [account_count_addBalance]; exact hidx)]
      have hsum : (delete_account st.store idx (some 2) tu ch).1.active_total
          = st.store.active_total
            - (st.store.acct t).balance.units
            + ((st.store.acct t).balance + (st.store.acct idx).balance).units
            - (st.store.acct idx).balance.units := by
        by_cases hch : ch = some 'y' ∨ ch = some 'Y'
        · rw [hd.2.1 _ _ hr hch]
          show (((st.store.addBalance t (st.store.acct idx).balance).zeroBalance
            idx).deactivate idx).active_total = _
          rw [active_total_deactivate _ _ hact2, hz, hm, double_units_zero]
          ring
        · rw [hd.2.2 _ _ hr hch]
          exact hm
      refine ⟨u, t, hu, hf, hne, htact, hsum, fun hx => ?_⟩
      rw [hsum, double_add_of_exact _ _ hx]
      simp only [Double.units]
      ring
  · intro amts s1 out hdep
    rcases deposit_money_accepts st.store idx amts s1 out hdep with
      ⟨pre, a, rest, hamts, hpre, ha, hs1⟩
    exact ⟨pre, a, rest, hamts, hpre, ha, hs1,
      by rw [hs1, active_total_addBalance _ _ _ hact],
      fun hx => by rw [hs1, active_total_addBalance_exact _ _ _ hact hx]⟩
  · intro amts s1 out hw
    rcases withdraw_money_accepts st.store idx amts s1 out hw with
      ⟨pre, a, rest, hamts, hpre, ha, hab, hs1⟩
    exact ⟨pre, a, rest, hamts, hpre, ha, hab, hs1,
      by rw [hs1, active_total_subBalance _ _ _ hact],
      fun hx => by rw [hs1, active_total_subBalance_exact _ _ _ hact hx]⟩
  · intro tu ch hb
    have hd := delete_account_of_resolve st.store idx (some 1) tu ch hact
    rcases delete_resolve_cases st.store idx (some 1) tu with
      ⟨m, hr⟩ | ⟨hnb, _⟩ | ⟨_, _, hr⟩ | ⟨_, ho, _⟩
    · simp [delete_account.resolve, hb] at hr
    · exact absurd hb hnb
    · have hact1 : ((st.store.zeroBalance idx).acct idx).active = true := by
        rw [active_zeroBalance]; exact hact
      have hz : ((st.store.zeroBalance idx).acct idx).balance = 0 := by
        rw [acct_zeroBalance_eq _ _ hidx]
      by_cases hch : ch = some 'y' ∨ ch = some 'Y'
      · rw [hd.2.1 _ _ hr hch]
        show ((st.store.zeroBalance idx).deactivate idx).active_total = _
        rw [active_total_deactivate _ _ hact1, hz, active_total_zeroBalance _ _ hact,
          double_units_zero]
        ring
      · rw [hd.2.2 _ _ hr hch]
        exact active_total_zeroBalance _ _ hact
    · exact absurd (Option.some.inj ho) (by decide)

/-- At the end of `demo_cmds`, with `alice` (60) logged in again: a deposit of
25 typed after a refused 0 raises the sum of the active balances by 25, and
closing the account with option 1 lowers it by 60. -/
theorem active_total_changes_witness :
    (∃ (pre : List (Option Double)) (a : Double) (rest : List (Option Double)),
      [some 0, some 25] = pre ++ some a :: rest ∧ (∀ b, some b ∈ pre → b ≤ 0) ∧ ¬ a ≤ 0 ∧
      demo_session.store.addBalance 0 25 = demo_session.store.addBalance 0 a ∧
      (demo_session.store.addBalance 0 25).active_total
        = demo_session.store.active_total - (demo_session.store.acct 0).balance.units
          + ((demo_session.store.acct 0).balance + a).units ∧
      (Double.exact_add (demo_session.store.acct 0).balance a →
        (demo_session.store.addBalance 0 25).active_total
          = demo_session.store.active_total + a.units)) ∧
    (delete_account demo_session.store 0 (some 1) none (some 'y')).1.active_total
      = demo_session.store.active_total - (demo_session.store.acct 0).balance.units :=
  have h := active_total_changes demo_session
    (Reachable.step demo_sys demo_session (.login (some "alice") (some "pw1"))
      (reachable_of_run Sys.init demo_cmds demo_sys Reachable.init rfl) rfl)
  ⟨(h.1 0 rfl).2.2.1 [some 0, some 25] (demo_session.store.addBalance 0 25)
      [Msg.amountNotPositive, Msg.depositSuccessful] (by decide),
    (h.1 0 rfl).2.2.2.2 none (some 'y') (by decide)⟩
/-! ## Login -/

/-- C15: for every store, username `u` and password `p`: `login` prints "No
such username or account inactive." and returns -1 exactly when no active
account has the username `u`; when the first active account with the username
`u` (the only one in every reachable store) has another password, `login`
prints "Incorrect password." and returns -1; when it has the password `p`,
`login` returns its index; whenever `login` does not return -1 it returns the
index of an active account with the username `u` and the password `p`; and the
login round of the main menu keeps the store. -/
theorem login_spec (s : Store) (u p : String) :
    (login s (some u) (some p) = (-1, [Msg.noSuchUsername]) ↔
      ∀ i, i < s.account_count →
        ¬ ((s.acct i).active = true ∧ (s.acct i).username = u)) ∧
    (∀ i, (s.acct i).active = true → (s.acct i).username = u →
      (∀ j, j < i → ¬ ((s.acct j).active = true ∧ (s.acct j).username = u)) →
      (s.acct i).password ≠ p →
      login s (some u) (some p) = (-1, [Msg.incorrectPassword])) ∧
    (∀ i, (s.acct i).active = true → (s.acct i).username = u →
      (∀ j, j < i → ¬ ((s.acct j).active = true ∧ (s.acct j).username = u)) →
      (s.acct i).password = p →
      login s (some u) (some p) = ((i : Int), [Msg.welcome])) ∧
    ((login s (some u) (some p)).1 ≠ -1 →
      ∃ i : Nat, login s (some u) (some p) = ((i : Int), [Msg.welcome]) ∧
        i < s.account_count ∧ (s.acct i).active = true ∧
        (s.acct i).username = u ∧ (s.acct i).password = p) ∧
    (∀ st1, step ⟨s, none⟩ (.login (some u) (some p)) = some st1 → st1.store = s) := by
  refine ⟨?_, ?_, ?_, ?_, ?_⟩
  · rw [← find_by_username_eq_neg_one]
    constructor
    · intro hl
      by_contra hne
      by_cases hp : (s.acct (find_by_username s u).toNat).password = p
      · simp [login, hne, hp] at hl
      · simp [login, hne, hp] at hl
    · intro hf
      simp [login, hf]
  · intro i hact hu hfirst hp
    have hown := (find_by_username_eq_iff s u i).mpr
      ⟨lt_account_count_of_active s i hact, hact, hu, hfirst⟩
    have hne : ¬ ((i : Int) = -1) := by omega
    simp [login, hown, hne, hp]
  · intro i hact hu hfirst hp
    have hown := (find_by_username_eq_iff s u i).mpr
      ⟨lt_account_count_of_active s i hact, hact, hu, hfirst⟩
    have hne : ¬ ((i : Int) = -1) := by omega
    simp [login, hown, hne, hp]
  · intro hne
    rcases login_result s (some u) (some p) with hneg | ⟨i, u1, p1, hu1, hp1, hl, _, hi, hact, hu, hp⟩
    · exact absurd hneg hne
    · have e1 : u = u1 := Option.some.inj hu1
      have e2 : p = p1 := Option.some.inj hp1
      exact ⟨i, hl, hi, hact, by rw [e1]; exact hu, by rw [e2]; exact hp⟩
  · intro st1 hs
    simp only [step] at hs
    split_ifs at hs
    · rw [← Option.some.inj hs]
    · rw [← Option.some.inj hs]

/-- In `demo`, `alice` logs in with her password and is refused with
another. -/
theorem login_spec_witness :
    login demo (some "alice") (some "pw1") = (((0 : Nat) : Int), [Msg.welcome]) ∧
    login demo (some "alice") (some "pw2") = (-1, [Msg.incorrectPassword]) :=
  ⟨(login_spec demo "alice" "pw1").2.2.1 0 rfl rfl (by decide) rfl,
    (login_spec demo "alice" "pw2").2.1 0 rfl rfl (by decide) (by decide)⟩

/-! ## Closing twice -/

/-- C16: for every store and every account `idx` that is closed, whatever is
typed, `delete_account` prints "Account already inactive." and returns the
store it was given, no input being looked at; so when a first call has closed
the account a second call returns the store the first one returned; and a
second call with the same input as the first one always does. -/
theorem delete_account_twice (s : Store) (idx : Nat) (opt : Option Int)
    (target_user : Option String) (ch : Option Char) :
    ((s.acct idx).active = false →
      delete_account s idx opt target_user ch = (s, [Msg.alreadyInactive])) ∧
    (∀ opt2 target_user2 ch2,
      ((delete_account s idx opt target_user ch).1.acct idx).active = false →
      delete_account (delete_account s idx opt target_user ch).1 idx opt2 target_user2 ch2
        = ((delete_account s idx opt target_user ch).1, [Msg.alreadyInactive])) ∧
    (delete_account (delete_account s idx opt target_user ch).1 idx opt target_user ch).1
      = (delete_account s idx opt target_user ch).1 := by
  have hclosed : ∀ (t : Store) (o : Option Int) (u : Option String) (c : Option Char),
      (t.acct idx).active = false →
      delete_account t idx o u c = (t, [Msg.alreadyInactive]) := by
    intro t o u c h
    simp [delete_account, h]
  refine ⟨hclosed s opt target_user ch, fun o u c h => hclosed _ o u c h, ?_⟩
  cases hact0 : (s.acct idx).active with
  | false => rw [hclosed s opt target_user ch hact0, hclosed s opt target_user ch hact0]
  | true =>
    have hidx := lt_account_count_of_active s idx hact0
    have hd := delete_account_of_resolve s idx opt target_user ch hact0
    -- a store whose slot `idx` is active with balance 0: a second call with a
    -- declined confirmation returns it as it is
    have hagain : ∀ t : Store, (t.acct idx).active = true → (t.acct idx).balance = 0 →
        ¬ (ch = some 'y' ∨ ch = some 'Y') →
        (delete_account t idx opt target_user ch).1 = t := by
      intro t hta htb hch
      have hnb : ¬ (t.acct idx).balance > 0 := by rw [htb]; exact double_lt_irrefl _
      have hr : delete_account.resolve t idx opt target_user = .ok (t, []) := by
        simp [delete_account.resolve, hnb]
      rw [(delete_account_of_resolve t idx opt target_user ch hta).2.2 _ _ hr hch]
    -- once the slot is closed a second call returns the store as it is
    have hshut : ∀ t : Store, idx < t.account_count →
        (delete_account (t.deactivate idx) idx opt target_user ch).1 = t.deactivate idx := by
      intro t ht
      rw [hclosed _ _ _ _ (by rw [acct_deactivate_eq _ _ ht])]
    rcases delete_resolve_cases s idx opt target_user with
      ⟨m, hr⟩ | ⟨hb, hr⟩ | ⟨_, _, hr⟩ | ⟨_, _, u, t, _, _, _, _, _, hr⟩
    · rw [hd.1 m hr]
      show (delete_account s idx opt target_user ch).1 = s
      rw [hd.1 m hr]
    · by_cases hch : ch = some 'y' ∨ ch = some 'Y'
      · rw [hd.2.1 _ _ hr hch]
        exact hshut s hidx
      · rw [hd.2.2 _ _ hr hch]
        show (delete_account s idx opt target_user ch).1 = s
        rw [hd.2.2 _ _ hr hch]
    · by_cases hch : ch = some 'y' ∨ ch = some 'Y'
      · rw [hd.2.1 _ _ hr hch]
        exact hshut _ (by rw [account_count_zeroBalance]; exact hidx)
      · rw [hd.2.2 _ _ hr hch]
        refine hagain _ ?_ ?_ hch
        · rw [active_zeroBalance]; exact hact0
        · rw [acct_zeroBalance_eq _ _ hidx]
    · by_cases hch : ch = some 'y' ∨ ch = some 'Y'
      · rw [hd.2.1 _ _ hr hch]
        exact hshut _ (by
          rw [account_count_zeroBalance, account_count_addBalance]; exact hidx)
      · rw [hd.2.2 _ _ hr hch]
        refine hagain _ ?_ ?_ hch
        · rw [active_zeroBalance, active_addBalance]; exact hact0
        · rw [acct_zeroBalance_eq _ _ (by rw [account_count_addBalance]; exact hidx)]

/-- In `closed_sys` account 0 is closed: closing it again, even with 'y', is
refused and nothing is written. -/
theorem delete_account_twice_witness :
    delete_account closed_sys.store 0 (some 1) none (some 'y')
      = (closed_sys.store, [Msg.alreadyInactive]) :=
  (delete_account_twice closed_sys.store 0 (some 1) none (some 'y')).1 rfl

/-! ## Closed accounts hold nothing -/

/-- C17, the code at the failing input: `alice` opens an account typing `nan`
for the first deposit, logs in and closes the account, answering 'y'.  The
balance NaN fails the test `a->balance > 0.0`, so the resolution block is
skipped, no option is asked for, and the account is marked closed as it is: the
state `nan_closed_sys` is reached from the empty store, and its closed account
has the balance NaN, which is not 0. -/
theorem nan_account_closed :
    run Sys.init nan_closing_cmds = some nan_closed_sys ∧ Reachable nan_closed_sys ∧
    delete_account nan_sys.store 0 none none (some 'y')
      = (nan_closed_sys.store, [Msg.accountDeleted]) ∧
    (nan_closed_sys.store.acct 0).active = false ∧
    (nan_closed_sys.store.acct 0).balance = Double.nan ∧
    (nan_closed_sys.store.acct 0).balance ≠ 0 :=
  ⟨rfl, reachable_of_run Sys.init nan_closing_cmds nan_closed_sys Reachable.init rfl,
    by decide, rfl, rfl, by decide⟩

/-! ## The lookups -/

/-- C18: for every store, `find_by_username` returns -1 exactly when no active
account below `account_count` has that username, and returns `i` exactly when
account `i` is the first active account below `account_count` with that
username; `find_by_id` does the same with the id; either returns -1 or such an
index, so never the index of a closed account; and in a reachable store
`find_by_id` returns `n - 1` when `1 ≤ n ≤ account_count` and account `n - 1`
is active, and -1 otherwise. -/
theorem lookups_spec (s : Store) :
    (∀ u,
      (find_by_username s u = -1 ↔
        ∀ i, i < s.account_count →
          ¬ ((s.acct i).active = true ∧ (s.acct i).username = u)) ∧
      (∀ i : Nat, find_by_username s u = (i : Int) ↔
        i < s.account_count ∧ (s.acct i).active = true ∧ (s.acct i).username = u ∧
        ∀ j, j < i → ¬ ((s.acct j).active = true ∧ (s.acct j).username = u)) ∧
      (find_by_username s u = -1 ∨ ∃ i : Nat, find_by_username s u = (i : Int))) ∧
    (∀ n,
      (find_by_id s n = -1 ↔
        ∀ i, i < s.account_count → ¬ ((s.acct i).active = true ∧ (s.acct i).id = n)) ∧
      (∀ i : Nat, find_by_id s n = (i : Int) ↔
        i < s.account_count ∧ (s.acct i).active = true ∧ (s.acct i).id = n ∧
        ∀ j, j < i → ¬ ((s.acct j).active = true ∧ (s.acct j).id = n)) ∧
      (find_by_id s n = -1 ∨ ∃ i : Nat, find_by_id s n = (i : Int))) ∧
    (∀ sess, Reachable ⟨s, sess⟩ → ∀ n : Int,
      ((1 ≤ n ∧ n ≤ (s.account_count : Int) ∧ (s.acct (n - 1).toNat).active = true) →
        find_by_id s n = n - 1) ∧
      (¬ (1 ≤ n ∧ n ≤ (s.account_count : Int) ∧ (s.acct (n - 1).toNat).active = true) →
        find_by_id s n = -1)) := by
  refine ⟨fun u => ⟨find_by_username_eq_neg_one s u, find_by_username_eq_iff s u, ?_⟩,
    fun n => ⟨find_by_id_eq_neg_one s n, find_by_id_eq_iff s n, ?_⟩, ?_⟩
  · rcases find_loop_range (fun a => a.active && a.username == u) s.accounts with
      hneg | ⟨i, _, hi⟩
    · exact Or.inl hneg
    · exact Or.inr ⟨i, hi⟩
  · rcases find_loop_range (fun a => a.active && a.id == n) s.accounts with
      hneg | ⟨i, _, hi⟩
    · exact Or.inl hneg
    · exact Or.inr ⟨i, hi⟩
  · intro sess hreach n
    have hinv := inv_of_reachable _ hreach
    have hids : ∀ j, j < s.account_count → (s.acct j).id = (j : Int) + 1 := hinv.1
    constructor
    · intro ⟨h1, h2, hact⟩
      have hown := find_by_id_own s (n - 1).toNat hact hids
      have hlt := lt_account_count_of_active s _ hact
      rw [hids _ hlt] at hown
      have e1 : (((n - 1).toNat : Nat) : Int) = n - 1 := Int.toNat_of_nonneg (by omega)
      rw [e1] at hown
      have e2 : n - 1 + 1 = n := by omega
      rw [e2] at hown
      exact hown
    · intro hnot
      rw [find_by_id_eq_neg_one]
      intro j hj ⟨hact, hid⟩
      rw [hids j hj] at hid
      apply hnot
      have e1 : (n - 1).toNat = j := by omega
      refine ⟨by omega, by omega, ?_⟩
      rw [e1]; exact hact

/-- In `closed_sys` the lookup of id 1, whose account is closed, returns -1
and the lookup of id 2 returns 1. -/
theorem lookups_spec_witness :
    find_by_id closed_sys.store 1 = -1 ∧ find_by_id closed_sys.store 2 = 2 - 1 :=
  have h := (lookups_spec closed_sys.store).2.2 none
    (reachable_of_run Sys.init closing_cmds closed_sys Reachable.init rfl)
  ⟨(h 1).2 (by decide), (h 2).1 (by decide)⟩

/-! ## The capacity of the array -/

/-- C19: in every reachable state `account_count ≤ MAX_ACCOUNTS`; a
`create_account` that appends an account does so at an index
`account_count < MAX_ACCOUNTS`; when `account_count = MAX_ACCOUNTS`,
`create_account` prints "Sorry, maximum number of accounts reached" and returns
the store it was given; no menu round lowers `account_count`; so once
`account_count = MAX_ACCOUNTS`, in every state a run leads to from there
`account_count` is still `MAX_ACCOUNTS` and every `create_account` fails,
whether the accounts are closed or not. -/
theorem account_count_bounded_of_reachable (st : Sys) (h : Reachable st) :
    st.store.account_count ≤ MAX_ACCOUNTS ∧
    (∀ name users password inits s1 out,
      create_account st.store name users password inits = some (s1, out) →
      s1.account_count ≠ st.store.account_count →
      st.store.account_count < MAX_ACCOUNTS ∧
        s1.account_count = st.store.account_count + 1) ∧
    (st.store.account_count = MAX_ACCOUNTS →
      ∀ name users password inits,
        create_account st.store name users password inits
          = some (st.store, [Msg.maxAccountsReached])) ∧
    (∀ c st1, step st c = some st1 →
      st.store.account_count ≤ st1.store.account_count) ∧
    (st.store.account_count = MAX_ACCOUNTS →
      ∀ cs st1, run st cs = some st1 →
        st1.store.account_count = MAX_ACCOUNTS ∧
        ∀ name users password inits,
          create_account st1.store name users password inits
            = some (st1.store, [Msg.maxAccountsReached])) := by
  have hinv := inv_of_reachable st h
  have hfail : ∀ t : Store, t.account_count = MAX_ACCOUNTS →
      ∀ name users password inits,
        create_account t name users password inits = some (t, [Msg.maxAccountsReached]) := by
    intro t ht name users password inits
    simp [create_account, ht]
  refine ⟨hinv.2.2.2, ?_, hfail st.store, ?_, ?_⟩
  · intro name users password inits s1 out hc hne
    rcases create_account_effect _ _ _ _ _ _ _ hc with
      ⟨_, hsame, _⟩ | ⟨hlt, u, init, hs1, _, _⟩
    · rw [hsame] at hne; exact absurd rfl hne
    · refine ⟨hlt, ?_⟩
      rw [hs1]
      simp [Store.account_count]
  · intro c st1 hs
    exact (step_keeps_identity st st1 c hinv hs).1
  · intro hfull cs st1 hrun
    have hmono := run_account_count_mono st cs st1 hinv hrun
    have hle := (inv_of_reachable st1 (reachable_of_run st cs st1 h hrun)).2.2.2
    have hcount : st1.store.account_count = MAX_ACCOUNTS := by
      rw [hfull] at hmono
      exact le_antisymm hle hmono
    exact ⟨hcount, hfail st1.store hcount⟩

/-- At the end of `full_cmds` all hundred accounts are closed and
`create_account` fails. -/
theorem account_count_bounded_of_reachable_witness :
    full_sys.store.account_count = MAX_ACCOUNTS ∧
    create_account full_sys.store "Carol C" [some "carol"] "pw3" [some 7]
      = some (full_sys.store, [Msg.maxAccountsReached]) :=
  (account_count_bounded_of_reachable full_sys reachable_full_sys).2.2.2.2 rfl []
    full_sys rfl |>.imp_right (fun hf => hf "Carol C" [some "carol"] "pw3" [some 7])

/-! ## A declined confirmation -/

/-- The counterexample to C20 as stated: in `rich`, `bob` is active with
balance 5 and closes his account moving everything to `alice`, who is active
and holds 1e17, and then answers 'n'.  `bob` stays active with balance 0 and
`alice` still holds 1e17, the double nearest to 1e17 + 5: she has not got the
extra 5. -/
theorem delete_account_declined_rounds :
    (rich.acct 1).active = true ∧ 0 < (rich.acct 1).balance ∧
    (rich.acct 0).active = true ∧ find_by_username rich "alice" = 0 ∧
    delete_account rich 1 (some 2) (some "alice") (some 'n')
      = (⟨[rich.acct 0, { rich.acct 1 with balance := 0 }]⟩,
          [Msg.transferredAll, Msg.deletionCancelled]) ∧
    (rich.acct 0).balance.units
      ≠ (rich.acct 0).balance.units + (rich.acct 1).balance.units := by
  decide

/-- C20, amended: for every active account `idx` with balance `b > 0`: when
option 1 (withdraw all) is followed by an answer other than 'y' or 'Y', the
slot of `idx` ends as the old one with balance 0, still active, every other
slot unchanged; when option 2 naming another account `t` with balance `c` is
followed by such an answer, the slot of `idx` ends as the old one with balance
0, still active, the slot of `t` as the old one with balance `c + b` computed
on `double`, which is exactly `c` raised by `b` when the sum is not rounded,
every other slot unchanged; and whenever the resolution block does not return
early, the account ends closed if and only if the answer is 'y' or 'Y'. -/
theorem delete_account_declined (s : Store) (idx : Nat) (opt : Option Int)
    (target_user : Option String) (ch : Option Char)
    (hact : (s.acct idx).active = true) (hb : 0 < (s.acct idx).balance) :
    (opt = some 1 → ¬ (ch = some 'y' ∨ ch = some 'Y') →
      ∃ s1 : Store,
        delete_account s idx opt target_user ch
          = (s1, [Msg.allMoneyWithdrawn, Msg.deletionCancelled]) ∧
        s1.acct idx = { s.acct idx with balance := 0 } ∧
        (s1.acct idx).active = true ∧
        (∀ j, j ≠ idx → s1.acct j = s.acct j) ∧
        s1.account_count = s.account_count) ∧
    (∀ (u : String) (t : Nat), opt = some 2 → target_user = some u →
      find_by_username s u = (t : Int) → t ≠ idx → ¬ (ch = some 'y' ∨ ch = some 'Y') →
      ∃ s1 : Store,
        delete_account s idx opt target_user ch
          = (s1, [Msg.transferredAll, Msg.deletionCancelled]) ∧
        s1.acct idx = { s.acct idx with balance := 0 } ∧
        (s1.acct idx).active = true ∧
        s1.acct t = { s.acct t with balance := (s.acct t).balance + (s.acct idx).balance } ∧
        (∀ j, j ≠ idx → j ≠ t → s1.acct j = s.acct j) ∧
        s1.account_count = s.account_count ∧
        (Double.exact_add (s.acct t).balance (s.acct idx).balance →
          (s1.acct t).balance.units
            = (s.acct t).balance.units + (s.acct idx).balance.units)) ∧
    (∀ r, delete_account.resolve s idx opt target_user = .ok r →
      (((delete_account s idx opt target_user ch).1.acct idx).active = false ↔
        (ch = some 'y' ∨ ch = some 'Y'))) := by
  have hidx : idx < s.account_count := lt_account_count_of_active s idx hact
  have hd := delete_account_of_resolve s idx opt target_user ch hact
  refine ⟨?_, ?_, ?_⟩
  · intro ho hch
    refine ⟨s.zeroBalance idx, ?_, acct_zeroBalance_eq _ _ hidx, ?_,
      fun j hj => acct_zeroBalance_ne _ _ _ hj, account_count_zeroBalance _ _⟩
    · simp [delete_account, delete_account.resolve, hact, hb, ho, hch]
    · rw [active_zeroBalance]; exact hact
  · intro u t ho hu hf hne hch
    have hto := find_by_username_found s u t hf
    have hne1 : ¬ ((t : Int) = (idx : Int)) := by omega
    have hacc : ((s.addBalance t (s.acct idx).balance).zeroBalance idx).acct t
        = { s.acct t with balance := (s.acct t).balance + (s.acct idx).balance } := by
      rw [acct_zeroBalance_ne _ _ _ hne, acct_addBalance_eq _ _ _ hto.1]
    refine ⟨(s.addBalance t (s.acct idx).balance).zeroBalance idx, ?_, ?_, ?_, hacc, ?_, ?_,
      ?_⟩
    · simp [delete_account, delete_account.resolve, hact, hb, ho, hu, hf, hne1, hch]
    · rw [acct_zeroBalance_eq _ _ (by rw [account_count_addBalance]; exact hidx),
        acct_addBalance_ne _ _ _ _ (Ne.symm hne)]
    · rw [active_zeroBalance, active_addBalance]; exact hact
    · intro j hj1 hj2
      rw [acct_zeroBalance_ne _ _ _ hj1, acct_addBalance_ne _ _ _ _ hj2]
    · rw [account_count_zeroBalance, account_count_addBalance]
    · intro hx
      rw [hacc]
      simp only
      rw [double_add_of_exact _ _ hx]
      rfl
  · intro r hr
    obtain ⟨s1, out⟩ := r
    have hs1 := delete_resolve_storeStep s idx opt target_user s1 out hr hact
    have hact1 : (s1.acct idx).active = true := by rw [hs1.2.1]; exact hact
    have hidx1 : idx < s1.account_count := lt_account_count_of_active s1 idx hact1
    by_cases hch : ch = some 'y' ∨ ch = some 'Y'
    · rw [hd.2.1 s1 out hr hch]
      constructor
      · intro _; exact hch
      · intro _
        show ((s1.deactivate idx).acct idx).active = false
        rw [acct_deactivate_eq _ _ hidx1]
    · rw [hd.2.2 s1 out hr hch]
      constructor
      · intro hc
        have hc1 : (s1.acct idx).active = false := hc
        rw [hact1] at hc1
        cases hc1
      · intro hc; exact absurd hc hch

/-- In `demo`, `alice` closes her account moving her 100 to `bob` and then
answers 'n': she stays active with nothing, `bob` keeps the 100. -/
theorem delete_account_declined_witness :
    ∃ s1 : Store,
      delete_account demo 0 (some 2) (some "bob") (some 'n')
        = (s1, [Msg.transferredAll, Msg.deletionCancelled]) ∧
      s1.acct 0 = { demo.acct 0 with balance := 0 } ∧
      (s1.acct 0).active = true ∧
      s1.acct 1
        = { demo.acct 1 with balance := (demo.acct 1).balance + (demo.acct 0).balance } ∧
      (∀ j, j ≠ 0 → j ≠ 1 → s1.acct j = demo.acct j) ∧
      s1.account_count = demo.account_count ∧
      (Double.exact_add (demo.acct 1).balance (demo.acct 0).balance →
        (s1.acct 1).balance.units
          = (demo.acct 1).balance.units + (demo.acct 0).balance.units) :=
  (delete_account_declined demo 0 (some 2) (some "bob") (some 'n') rfl
    (by decide)).2.1 "bob" 1 rfl rfl (by decide) (by decide)
    (by decide)

end Bank
